import Mathlib

/-!
# PersonClassifierApp/jni/main.cpp — face, gender and age report

A shallow embedding of the native bridge `main.cpp` and the properties of its
per-frame decision pipeline.

Modelling conventions.

* `float` and `double` values are dyadic numbers `m * 2^e` (or an infinity, or NaN);
  multiplication and the conversion from `int` round to nearest, ties to even, in
  the binary32 or binary64 format, each operation rounded once to its own format.
  Signed zeros are identified: no operation used by the program tells them apart.
* `static_cast<int>` truncates toward zero.  For NaN, the infinities and values
  outside the range of `int` C++ leaves the result undefined and the processors
  differ (the least `int` on x86, saturation on ARM); the model takes that result
  from the parameter `ub`, reduced to the range of `int`, and every theorem holds
  for all `ub`.
* `int` addition, subtraction and multiplication wrap around modulo `2^32`
  (`wrapInt`), as the two's complement instructions of the processors do.
* A thrown exception is the result `none`.
* A `std::string` is a `String` whose characters each stand for one `char`.
* The OpenCV networks and drawing primitives are parameters; the region-of-interest
  operator `frame(rect)` follows its documented precondition, and `minMaxLoc` its
  scan for the first greatest element.
-/

namespace PersonClassifier

/-! ## Floating point -/

/-- Number of binary digits of `n`, by halving; `fuel` bounds the number of steps. -/
def bitLenAux : Nat → Nat → Nat
  | 0, _ => 0
  | fuel + 1, n => if n = 0 then 0 else bitLenAux fuel (n / 2) + 1

/-- Number of binary digits of `n` (`0` for `0`). -/
def bitLen (n : Nat) : Nat := bitLenAux n n

/-- A binary floating-point format: `prec` significand bits, least subnormal
`2^emin`, every finite value below `2^emax`. -/
structure Format where
  prec : Nat
  emin : Int
  emax : Int

/-- The format of `float`. -/
def binary32 : Format := ⟨24, -149, 128⟩

/-- The format of `double`. -/
def binary64 : Format := ⟨53, -1074, 1024⟩

/-- A floating-point value: the dyadic number `m * 2^e`, an infinity, or NaN. -/
inductive Flt where
  | fin (m : Int) (e : Int)
  | inf (neg : Bool)
  | nan
deriving DecidableEq, Repr

/-- The number of low bits of the magnitude `a * 2^e` that do not fit format `F`. -/
def roundShift (F : Format) (a : Nat) (e : Int) : Nat :=
  (max (e + bitLen a - F.prec) F.emin - e).toNat

/-- The magnitude `a / 2^s` rounded to the nearest integer, ties to even. -/
def roundMag (a s : Nat) : Nat :=
  let q := a / 2 ^ s
  let r := a % 2 ^ s
  if 2 ^ s < 2 * r ∨ (2 * r = 2 ^ s ∧ q % 2 = 1) then q + 1 else q

/-- Round `m * 2^e` to the nearest value of format `F`, ties to even; a rounded
magnitude of `2^emax` or more overflows to an infinity. -/
def roundNE (F : Format) (m : Int) (e : Int) : Flt :=
  let s := roundShift F m.natAbs e
  let q := roundMag m.natAbs s
  if q ≠ 0 ∧ F.emax < bitLen q + (e + s) then Flt.inf (decide (m < 0))
  else Flt.fin (m.sign * q) (e + s)

/-- Conversion of an `int` to format `F`. -/
def Flt.ofInt (F : Format) (n : Int) : Flt := roundNE F n 0

/-- The product `a * b`, rounded to format `F`. -/
def Flt.mul (F : Format) : Flt → Flt → Flt
  | .fin m1 e1, .fin m2 e2 => roundNE F (m1 * m2) (e1 + e2)
  | .nan, _ => .nan
  | _, .nan => .nan
  | .inf s, .fin m _ => if m = 0 then .nan else .inf (xor s (decide (m < 0)))
  | .fin m _, .inf s => if m = 0 then .nan else .inf (xor s (decide (m < 0)))
  | .inf s1, .inf s2 => .inf (xor s1 s2)

/-- The comparison `a > b`; false whenever an operand is NaN. -/
def Flt.gt : Flt → Flt → Bool
  | .fin m1 e1, .fin m2 e2 =>
      decide (m2 * 2 ^ (e2 - min e1 e2).toNat < m1 * 2 ^ (e1 - min e1 e2).toNat)
  | .nan, _ => false
  | _, .nan => false
  | .inf n1, .inf n2 => n2 && !n1
  | .inf n1, .fin _ _ => !n1
  | .fin _ _, .inf n2 => n2

/-- Least value of `int`. -/
def INT_MIN : Int := -2147483648

/-- Greatest value of `int`. -/
def INT_MAX : Int := 2147483647

/-- The value of an `int` expression whose exact result is `z`: the result modulo
`2^32` in the range of `int` (two's complement wrap-around on overflow). -/
def wrapInt (z : Int) : Int := (z + 2147483648) % 4294967296 - 2147483648

/-- The conversion `static_cast<int>(f)` where C++ defines it: truncation toward
zero; `none` for NaN, the infinities and values outside the range of `int`. -/
def truncInt : Flt → Option Int
  | .fin m e =>
      let t := if 0 ≤ e then m * 2 ^ e.toNat else Int.tdiv m (2 ^ (-e).toNat)
      if INT_MIN ≤ t ∧ t ≤ INT_MAX then some t else none
  | _ => none

/-- The conversion `static_cast<int>(f)`.  Where C++ leaves it undefined the result
is the `int` that the conversion instruction of the processor gives, `ub f`. -/
def castInt (ub : Flt → Int) (f : Flt) : Int :=
  match truncInt f with
  | some t => t
  | none => wrapInt (ub f)

/-- The `double` literal `0.2` (bit pattern `0x3FC999999999999A`). -/
def dbl_0_2 : Flt := .fin 7205759403792794 (-55)

/-- The `double` literal `0.7` (bit pattern `0x3FE6666666666666`). -/
def dbl_0_7 : Flt := .fin 6305039478318694 (-53)

/-- Conversion of a finite `double` to `float`, as done for the default argument
`float confThreshold = 0.7`. -/
def toFloat : Flt → Flt
  | .fin m e => roundNE binary32 m e
  | f => f

/-! ## Data -/

/-- The OpenCV `Rect(x, y, width, height)`. -/
structure Rect where
  x : Int
  y : Int
  width : Int
  height : Int
deriving DecidableEq, Repr

/-- One pixel: its three channel values. -/
abbrev Pixel := Nat × Nat × Nat

/-- The OpenCV `Mat` of a frame: `cols` columns, `rows` rows and the pixel at
each (row, column). -/
structure Mat where
  cols : Int
  rows : Int
  px : Int → Int → Pixel

/-- The region of interest `m(r)`.  OpenCV asserts
`0 <= r.x && 0 <= r.width && r.x + r.width <= m.cols` and the same for rows, the
sums being `int` sums, and throws `cv::Exception` otherwise. -/
def Mat.roi (m : Mat) (r : Rect) : Option Mat :=
  if 0 ≤ r.x ∧ 0 ≤ r.width ∧ wrapInt (r.x + r.width) ≤ m.cols ∧
      0 ≤ r.y ∧ 0 ≤ r.height ∧ wrapInt (r.y + r.height) ≤ m.rows then
    some ⟨r.width, r.height, fun i j => m.px (r.y + i) (r.x + j)⟩
  else none

/-- One row `[_, _, confidence, x1, y1, x2, y2]` of the detection matrix. -/
structure Detection where
  imageId : Flt
  classId : Flt
  confidence : Flt
  x1 : Flt
  y1 : Flt
  x2 : Flt
  y2 : Flt
deriving DecidableEq

/-- The global `ageList`. -/
def ageList : List String :=
  ["(0-2)", "(4-6)", "(8-12)", "(15-20)", "(25-32)", "(38-43)", "(48-53)", "(60-100)"]

/-- The global `genderList`. -/
def genderList : List String := ["Male", "Female"]

/-! ## highlightFace -/

/-- The expression `static_cast<int>(v * n)` with `v` a `float` and `n` an `int`. -/
def scaleCoord (ub : Flt → Int) (v : Flt) (n : Int) : Int :=
  castInt ub (Flt.mul binary32 v (Flt.ofInt binary32 n))

/-- The body of the `if (confidence > confThreshold)` branch of `highlightFace`:
the box pushed for one detection row. -/
def detectionBox (ub : Flt → Int) (d : Detection) (cols rows : Int) : Rect :=
  let x1 := scaleCoord ub d.x1 cols
  let y1 := scaleCoord ub d.y1 rows
  let x2 := scaleCoord ub d.x2 cols
  let y2 := scaleCoord ub d.y2 rows
  let x1 := max 0 x1
  let y1 := max 0 y1
  let x2 := min (wrapInt (cols - 1)) x2
  let y2 := min (wrapInt (rows - 1)) y2
  ⟨x1, y1, wrapInt (x2 - x1), wrapInt (y2 - y1)⟩

/-- The `for` loop of `highlightFace` over the rows of the detection matrix,
pushing onto `faceBoxes`. -/
def highlightLoop (ub : Flt → Int) (cols rows : Int) (confThreshold : Flt) :
    List Detection → List Rect → List Rect
  | [], faceBoxes => faceBoxes
  | d :: ds, faceBoxes =>
      if Flt.gt d.confidence confThreshold then
        highlightLoop ub cols rows confThreshold ds (faceBoxes ++ [detectionBox ub d cols rows])
      else highlightLoop ub cols rows confThreshold ds faceBoxes

/-- The default argument `float confThreshold = 0.7`. -/
def defaultConfThreshold : Flt := toFloat dbl_0_7

/-- The call `faceBoxes.clear()`. -/
def clear (_faceBoxes : List Rect) : List Rect := []

/-- The function `highlightFace`.  `net` stands for `blobFromImage`, `setInput` and
`forward` on the copy of the frame and gives the rows of the detection matrix
(`none` when it throws); `faceBoxes` is the content of the output vector on entry,
the result its content on return. -/
def highlightFace (ub : Flt → Int) (net : Mat → Option (List Detection)) (frame : Mat)
    (faceBoxes : List Rect) (confThreshold : Flt) : Option (List Rect) := do
  let detectionMat ← net frame
  pure (highlightLoop ub frame.cols frame.rows confThreshold detectionMat (clear faceBoxes))

/-! ## getPersonLabel -/

/-- The call `ageRange.find("-")`: the index of the first hyphen, `none` for `npos`. -/
def findDash : List Char → Option Nat
  | [] => none
  | c :: cs => if c = '-' then some 0 else (findDash cs).map (· + 1)

/-- The call `ageRange.substr(1, dashPos-1)`.  It throws `std::out_of_range` when the
string is empty; the length `dashPos-1` is unsigned, so for `npos` and for `0` it
exceeds every string length and the rest of the string is taken. -/
def substr1 (s : List Char) (dashPos : Option Nat) : Option (List Char) :=
  match s with
  | [] => none
  | _ :: t =>
      match dashPos with
      | none => some t
      | some 0 => some t
      | some (d + 1) => some (t.take d)

/-- The C `isspace` in the default locale. -/
def isSpace (c : Char) : Bool :=
  c = ' ' || (9 ≤ c.toNat && c.toNat ≤ 13)

/-- The C `isdigit`. -/
def isDigit (c : Char) : Bool :=
  48 ≤ c.toNat && c.toNat ≤ 57

/-- The value of a run of decimal digits. -/
def digitsVal (ds : List Char) : Nat :=
  ds.foldl (fun acc c => 10 * acc + (c.toNat - 48)) 0

/-- The call `std::stoi(s)`: blanks are skipped, a sign is optional, the longest run
of digits is read and what follows is ignored.  It throws `std::invalid_argument`
without a digit and `std::out_of_range` outside the range of `int`. -/
def stoi (s : List Char) : Option Int :=
  let s1 := s.dropWhile isSpace
  let neg := decide (s1.head? = some '-')
  let s2 := if s1.head? = some '-' ∨ s1.head? = some '+' then s1.tail else s1
  let ds := s2.takeWhile isDigit
  if ds = [] then none
  else
    let z : Int := if neg then -(digitsVal ds : Int) else (digitsVal ds : Int)
    if INT_MIN ≤ z ∧ z ≤ INT_MAX then some z else none

/-- The function `getPersonLabel`; `none` when `substr` or `stoi` throws. -/
def getPersonLabel (gender : String) (ageRange : String) : Option String := do
  let dashPos := findDash ageRange.data
  let sub ← substr1 ageRange.data dashPos
  let minAge ← stoi sub
  if gender = "Male" then
    pure (if minAge < 18 then "Boy" else "Man")
  else
    pure (if minAge < 18 then "Girl" else "Woman")

/-! ## processFrame -/

/-- The three networks.  Each field stands for `blobFromImage`, `setInput` and
`forward` on an image; `none` is an inference failure. -/
structure Nets where
  faceNet : Mat → Option (List Detection)
  genderNet : Mat → Option (List Flt)
  ageNet : Mat → Option (List Flt)

/-- The OpenCV drawing primitives `rectangle(img, rect, color, thickness)` and
`putText(img, text, (x, y), FONT_HERSHEY_SIMPLEX, 0.8, color, thickness)`, each
giving the pixels of the image after the call. -/
structure Imgproc where
  rectangle : Mat → Rect → Pixel → Int → (Int → Int → Pixel)
  putText : Mat → String → Int → Int → Pixel → Int → (Int → Int → Pixel)

/-- Drawing primitives that leave the image as it is. -/
def noDrawing : Imgproc :=
  ⟨fun img _ _ _ => img.px, fun img _ _ _ _ _ => img.px⟩

/-- The scan of `minMaxLoc` for the maximum: an element replaces the current
maximum only when it is strictly greater; `best` is the location found so far. -/
def maxLocScan : List Flt → Nat → Flt → Option Nat → Option Nat
  | [], _, _, best => best
  | v :: vs, i, maxVal, best =>
      if Flt.gt v maxVal then maxLocScan vs (i + 1) v (some i)
      else maxLocScan vs (i + 1) maxVal best

/-- The location of the maximum reported by `minMaxLoc` on a one-row matrix: the
scan starts from negative infinity, and the first location is reported when no
element is greater than that.  On an empty matrix the location is not defined. -/
def maxLoc (a : List Flt) : Option Nat :=
  match a with
  | [] => none
  | _ :: _ => some ((maxLocScan a 0 (Flt.inf true) none).getD 0)

/-- The expression `static_cast<int>(0.2 * n)` with `n` an `int`. -/
def padding (ub : Flt → Int) (n : Int) : Int :=
  castInt ub (Flt.mul binary64 dbl_0_2 (Flt.ofInt binary64 n))

/-- The rectangle `faceRect` built from `faceBox`, the padding and the frame size. -/
def faceRect (cols rows : Int) (faceBox : Rect) (padding : Int) : Rect :=
  ⟨max 0 (wrapInt (faceBox.x - padding)),
   max 0 (wrapInt (faceBox.y - padding)),
   min (wrapInt (faceBox.width + wrapInt (2 * padding)))
     (wrapInt (cols - max 0 (wrapInt (faceBox.x - padding)))),
   min (wrapInt (faceBox.height + wrapInt (2 * padding)))
     (wrapInt (rows - max 0 (wrapInt (faceBox.y - padding))))⟩

/-- The padding step of one loop iteration: `padding` and then `faceRect`. -/
def padRect (ub : Flt → Int) (cols rows : Int) (faceBox : Rect) : Rect :=
  faceRect cols rows faceBox (padding ub (max faceBox.width faceBox.height))

/-- The call `std::to_string(n)` for an `int`. -/
def to_string (n : Int) : String := toString n

/-- The first line appended to `result` for one face. -/
def detectedLine (label gender ageRange : String) : String :=
  "Detected: " ++ label ++ " (Gender: " ++ gender ++ ", Age: " ++ ageRange ++ ")\n"

/-- The second line appended to `result` for one face. -/
def positionLine (faceBox : Rect) : String :=
  "Face position - X: " ++ to_string faceBox.x ++ ", Y: " ++ to_string faceBox.y ++
    ", Width: " ++ to_string faceBox.width ++ ", Height: " ++ to_string faceBox.height ++ "\n"

/-- The gender and age range read off the two classifiers for one cropped face. -/
def classify (N : Nets) (face : Mat) : Option (String × String) := do
  let genderPreds ← N.genderNet face
  let g0 ← genderPreds[0]?
  let g1 ← genderPreds[1]?
  let gender ← genderList[if Flt.gt g0 g1 then 0 else 1]?
  let agePreds ← N.ageNet face
  let ageMaxLoc ← maxLoc agePreds
  let ageRange ← ageList[ageMaxLoc]?
  pure (gender, ageRange)

/-- The frame after `rectangle` and `putText` for one face. -/
def drawFace (D : Imgproc) (frame : Mat) (faceBox : Rect) (label ageRange : String) : Mat :=
  let frame1 : Mat := { frame with px := D.rectangle frame faceBox (0, 255, 0) 2 }
  { frame1 with
    px := D.putText frame1 (label ++ " " ++ ageRange) faceBox.x (wrapInt (faceBox.y - 10))
      (0, 255, 255) 2 }

/-- The label, gender and age range computed for one face box in one iteration of
the loop of `processFrame`: padding, crop, classification and label. -/
def faceReport (ub : Flt → Int) (N : Nets) (frame : Mat) (faceBox : Rect) :
    Option (String × String × String) :=
  (frame.roi (padRect ub frame.cols frame.rows faceBox)).bind fun face =>
  (classify N face).bind fun ga =>
  (getPersonLabel ga.1 ga.2).bind fun label =>
  some (label, ga.1, ga.2)

/-- The `for` loop of `processFrame` over `faceBoxes`, threading the frame, which
is drawn on in place, and `result`. -/
def processFaces (ub : Flt → Int) (N : Nets) (D : Imgproc) :
    List Rect → Mat → String → Option String
  | [], _, result => some result
  | faceBox :: rest, frame, result =>
      (faceReport ub N frame faceBox).bind fun r =>
        processFaces ub N D rest (drawFace D frame faceBox r.1 r.2.2)
          (result ++ detectedLine r.1 r.2.1 r.2.2 ++ positionLine faceBox)

/-- The JNI function `processFrame` of `YourNativeClass`: the text handed to
`NewStringUTF`, or `none` when an exception ends the call. -/
def Java_com_example_personclassifierapp_YourNativeClass_processFrame
    (ub : Flt → Int) (N : Nets) (D : Imgproc) (frame : Mat) : Option String :=
  match highlightFace ub N.faceNet frame [] defaultConfThreshold with
  | none => none
  | some faceBoxes => processFaces ub N D faceBoxes frame ""

/-- The JNI function under the name the Java side calls it by. -/
abbrev processFrame (ub : Flt → Int) (N : Nets) (D : Imgproc) (frame : Mat) : Option String :=
  Java_com_example_personclassifierapp_YourNativeClass_processFrame ub N D frame

/-! ## Predicates and test data used by the theorems -/

/-- A rectangle lies within a `W × H` frame. -/
def Rect.inFrame (r : Rect) (W H : Int) : Prop :=
  0 ≤ r.x ∧ 0 ≤ r.y ∧ 0 ≤ r.width ∧ 0 ≤ r.height ∧ r.x + r.width ≤ W ∧ r.y + r.height ≤ H

/-- The two lines appended to `result` for one face. -/
def faceRecord (r : String × String × String) (faceBox : Rect) : String :=
  detectedLine r.1 r.2.1 r.2.2 ++ positionLine faceBox

/-- The comparison `a <= b`; false whenever an operand is NaN. -/
def Flt.le : Flt → Flt → Bool
  | .fin m1 e1, .fin m2 e2 =>
      decide (m1 * 2 ^ (e1 - min e1 e2).toNat ≤ m2 * 2 ^ (e2 - min e1 e2).toNat)
  | .nan, _ => false
  | _, .nan => false
  | .inf n1, .inf n2 => n1 || !n2
  | .inf n1, .fin _ _ => n1
  | .fin _ _, .inf n2 => !n2

/-- The `float` nearest to 0.95. -/
def f32_0_95 : Flt := .fin 15938355 (-24)

/-- The `float` nearest to 0.9. -/
def f32_0_9 : Flt := .fin 15099494 (-24)

/-- The `float` nearest to 0.1. -/
def f32_0_1 : Flt := .fin 13421773 (-27)

/-- The `float` 0.5. -/
def f32_0_5 : Flt := .fin 1 (-1)

/-- The `float` 0. -/
def f32_0 : Flt := .fin 0 0

/-- The `float` 1. -/
def f32_1 : Flt := .fin 1 0

/-- Stub networks: the detector answers `dets` on every frame, the gender
classifier `[0.9, 0.1]` and the age classifier `[0, 0, 0, 0, 1, 0, 0, 0]` on
every crop. -/
def stubNets (dets : List Detection) : Nets :=
  ⟨fun _ => some dets, fun _ => some [f32_0_9, f32_0_1],
   fun _ => some [f32_0, f32_0, f32_0, f32_0, f32_1, f32_0, f32_0, f32_0]⟩

/-- Networks whose classifiers fail on an empty image, as `blobFromImage` does,
and answer like `stubNets` otherwise. -/
def emptyCropNets (dets : List Detection) : Nets :=
  ⟨fun _ => some dets,
   fun face => if face.cols ≤ 0 ∨ face.rows ≤ 0 then none else some [f32_0_9, f32_0_1],
   fun face => if face.cols ≤ 0 ∨ face.rows ≤ 0 then none
     else some [f32_0, f32_0, f32_0, f32_0, f32_1, f32_0, f32_0, f32_0]⟩

/-- A detection of confidence 0.95 with the given corners. -/
def detectionAt (x1 y1 x2 y2 : Flt) : Detection :=
  ⟨f32_0, f32_1, f32_0_95, x1, y1, x2, y2⟩

/-- The `float` nearest to 0.3. -/
def f32_0_3 : Flt := .fin 10066330 (-25)

/-- The `float` nearest to 0.7. -/
def f32_0_7 : Flt := .fin 11744051 (-24)

/-- A black 100 × 100 frame. -/
def blackFrame : Mat := ⟨100, 100, fun _ _ => (0, 0, 0)⟩

/-- Networks for two overlapping faces: the detector reports the corners
(0.1, 0.1, 0.5, 0.5) and (0.3, 0.3, 0.7, 0.7), both with confidence 0.95; the
gender classifier answers `[0.9, 0.1]` when the pixel at row 27, column 27 of
the crop is green and `[0.1, 0.9]` otherwise; the age classifier answers
`[0, 0, 0, 0, 1, 0, 0, 0]`. -/
def overlapNets : Nets :=
  ⟨fun _ => some [detectionAt f32_0_1 f32_0_1 f32_0_5 f32_0_5,
                  detectionAt f32_0_3 f32_0_3 f32_0_7 f32_0_7],
   fun face => if face.px 27 27 = (0, 255, 0) then some [f32_0_9, f32_0_1]
               else some [f32_0_1, f32_0_9],
   fun _ => some [f32_0, f32_0, f32_0, f32_0, f32_1, f32_0, f32_0, f32_0]⟩

/-- Drawing primitives that paint the one-pixel outline of the rectangle, from its
top-left corner to the pixel before its bottom-right corner, and no text. -/
def outlineDrawing : Imgproc :=
  ⟨fun img r color _ => fun i j =>
      if r.y ≤ i ∧ i ≤ r.y + r.height - 1 ∧ r.x ≤ j ∧ j ≤ r.x + r.width - 1 ∧
          (i = r.y ∨ i = r.y + r.height - 1 ∨ j = r.x ∨ j = r.x + r.width - 1) then color
      else img.px i j,
   fun img _ _ _ _ _ => img.px⟩

/-- A detector output of four rows, of confidence 0.95, 0.69, 0.7 and 0.95, with
the corners (0.1, 0.1, 0.5, 0.5), (0.1, 0.1, 0.9, 0.9), (0.5, 0.5, 0.9, 0.9) and
(0.3, 0.3, 0.7, 0.7). -/
def mixedRows : List Detection :=
  [⟨f32_0, f32_1, f32_0_95, f32_0_1, f32_0_1, f32_0_5, f32_0_5⟩,
   ⟨f32_0, f32_1, .fin 11576279 (-24), f32_0_1, f32_0_1, f32_0_9, f32_0_9⟩,
   ⟨f32_0, f32_1, f32_0_7, f32_0_5, f32_0_5, f32_0_9, f32_0_9⟩,
   ⟨f32_0, f32_1, f32_0_95, f32_0_3, f32_0_3, f32_0_7, f32_0_7⟩]

/-- The number of low bits dropped when the magnitude `A * 2^(-Γ)` is rounded to
binary32, for `G = Γ - 149`. -/
def dropBits (G A : Nat) : Nat := max (bitLen A - 24) G

/-- The magnitude `A * 2^(-Γ)` rounded to binary32, on the scale `2^(-Γ)`, for
`G = Γ - 149`. -/
def roundScaled (G A : Nat) : Nat := roundMag A (dropBits G A) * 2 ^ dropBits G A

/-! ## Binary digits and rounding -/

theorem bitLenAux_spec (fuel : Nat) : ∀ n : Nat, n ≤ fuel →
    n < 2 ^ bitLenAux fuel n ∧ (n ≠ 0 → 2 ^ (bitLenAux fuel n - 1) ≤ n) := by
  induction fuel with
  | zero =>
    intro n hn
    have : n = 0 := by omega
    subst this
    simp [bitLenAux]
  | succ k ih =>
    intro n hn
    unfold bitLenAux
    by_cases h0 : n = 0
    · subst h0; simp
    · rw [if_neg h0]
      have hk : n / 2 ≤ k := by omega
      obtain ⟨h1, h2⟩ := ih (n / 2) hk
      refine ⟨?_, fun _ => ?_⟩
      · rw [pow_succ]; omega
      · simp only [Nat.add_sub_cancel]
        by_cases hh : n / 2 = 0
        · have hb : bitLenAux k (n / 2) = 0 := by
            rw [hh]; cases k <;> simp [bitLenAux]
          rw [hb]; simp; omega
        · have := h2 hh
          have hpos : 1 ≤ bitLenAux k (n / 2) := by
            by_contra hc
            have : bitLenAux k (n / 2) = 0 := by omega
            rw [this] at h1
            simp at h1
            exact hh h1
          have e : bitLenAux k (n / 2) = (bitLenAux k (n / 2) - 1) + 1 := by omega
          rw [e, pow_succ]
          omega

theorem lt_pow_bitLen (n : Nat) : n < 2 ^ bitLen n :=
  (bitLenAux_spec n n le_rfl).1

theorem pow_bitLen_le (n : Nat) (h : n ≠ 0) : 2 ^ (bitLen n - 1) ≤ n :=
  (bitLenAux_spec n n le_rfl).2 h

theorem bitLen_le_of_lt_pow (n k : Nat) (h : n < 2 ^ k) : bitLen n ≤ k := by
  by_cases h0 : n = 0
  · subst h0; simp [bitLen, bitLenAux]
  · by_contra hc
    have h1 := pow_bitLen_le n h0
    have h2 : 2 ^ k ≤ 2 ^ (bitLen n - 1) := Nat.pow_le_pow_right (by norm_num) (by omega)
    omega

theorem lt_bitLen_of_pow_le (n k : Nat) (h : 2 ^ k ≤ n) : k < bitLen n := by
  by_contra hc
  have h1 := lt_pow_bitLen n
  have h2 : 2 ^ bitLen n ≤ 2 ^ k := Nat.pow_le_pow_right (by norm_num) (by omega)
  omega

theorem roundMag_ge (a s : Nat) : a / 2 ^ s ≤ roundMag a s := by
  unfold roundMag
  simp only
  split <;> omega

theorem roundMag_le (a s : Nat) : roundMag a s ≤ a / 2 ^ s + 1 := by
  unfold roundMag
  simp only
  split <;> omega

theorem roundMag_zero (a : Nat) : roundMag a 0 = a := by
  unfold roundMag
  simp [Nat.mod_one]

theorem wrapInt_eq (z : Int) (h1 : INT_MIN ≤ z) (h2 : z ≤ INT_MAX) : wrapInt z = z := by
  unfold INT_MIN at h1
  unfold INT_MAX at h2
  unfold wrapInt
  omega

theorem wrapInt_range (z : Int) : INT_MIN ≤ wrapInt z ∧ wrapInt z ≤ INT_MAX := by
  unfold INT_MIN INT_MAX wrapInt
  omega

theorem wrapInt_over (s : Int) (h0 : INT_MAX < s) (h1 : s < 4294967296) : wrapInt s < 0 := by
  unfold INT_MAX at h0
  unfold wrapInt
  omega

theorem castInt_of_trunc (ub : Flt → Int) (f : Flt) (t : Int) (h : truncInt f = some t) :
    castInt ub f = t := by
  unfold castInt
  rw [h]

theorem truncInt_negExp (q T k : Nat) (e : Int) (he : e = -(T : Int)) (hT : 0 < T)
    (hk : q / 2 ^ T = k) (hr : k ≤ 2147483647) :
    truncInt (Flt.fin (q : Int) e) = some (k : Int) := by
  subst he
  have h1 : ¬ (0 : Int) ≤ -(T : Int) := by omega
  have ht : Int.tdiv (q : Int) (2 ^ T) = (k : Int) := by
    rw [← hk]; norm_cast
  have hr2 : INT_MIN ≤ (k : Int) ∧ (k : Int) ≤ INT_MAX := by
    unfold INT_MIN INT_MAX
    omega
  simp only [truncInt, h1, if_false, neg_neg, Int.toNat_ofNat, ht, hr2, and_self, if_true]

theorem roundNE_exact (F : Format) (m e : Int)
    (hs : roundShift F m.natAbs e = 0) (ho : (bitLen m.natAbs : Int) + e ≤ F.emax) :
    roundNE F m e = Flt.fin m e := by
  unfold roundNE
  simp only [hs, roundMag_zero]
  rw [if_neg (by push_cast; omega)]
  congr 1
  · exact Int.sign_mul_natAbs m
  · simp

theorem ofInt64_exact (n : Int) (h0 : 0 ≤ n) (h1 : n ≤ INT_MAX) :
    Flt.ofInt binary64 n = Flt.fin n 0 := by
  have hb : bitLen n.natAbs ≤ 31 := by
    apply bitLen_le_of_lt_pow
    unfold INT_MAX at h1
    omega
  apply roundNE_exact
  · unfold roundShift binary64
    simp only
    omega
  · unfold binary64; simp only; omega

theorem padding_trunc (n : Int) (h0 : 0 ≤ n) (h1 : n ≤ INT_MAX) :
    truncInt (Flt.mul binary64 dbl_0_2 (Flt.ofInt binary64 n)) = some (n / 5) := by
  rw [ofInt64_exact n h0 h1]
  unfold INT_MAX at h1
  obtain ⟨a, rfl⟩ := Int.eq_ofNat_of_zero_le h0
  by_cases hz : a = 0
  · subst hz; decide
  have ha : a < 2 ^ 31 := by omega
  unfold dbl_0_2 Flt.mul roundNE
  have hnat : ((7205759403792794 : Int) * (a : Int)).natAbs = 7205759403792794 * a := by
    rw [Int.natAbs_mul]; simp
  simp only [hnat]
  set M := 7205759403792794 * a with hM
  have hMlo : 2 ^ 52 ≤ M := by omega
  have hMhi : M < 2 ^ 84 := by omega
  have hL1 : 52 < bitLen M := lt_bitLen_of_pow_le M 52 hMlo
  have hL2 : bitLen M ≤ 84 := bitLen_le_of_lt_pow M 84 hMhi
  have hs : roundShift binary64 M (-55 + 0) = bitLen M - 53 := by
    unfold roundShift binary64; simp only; omega
  rw [hs]
  set s := bitLen M - 53 with hsdef
  have hs31 : s ≤ 31 := by omega
  have hpow : 2 ^ s * 2 ^ (55 - s) = 2 ^ 55 := by
    rw [← pow_add]; congr 1; omega
  have hps : 2 ^ s ≤ 2 ^ 31 := Nat.pow_le_pow_right (by norm_num) hs31
  have hps0 : 0 < 2 ^ s := by positivity
  have hpT0 : 0 < 2 ^ (55 - s) := by positivity
  set q := roundMag M s with hq
  have hq1 : M / 2 ^ s ≤ q := roundMag_ge M s
  have hq2 : q ≤ M / 2 ^ s + 1 := roundMag_le M s
  -- the quotient lies in the window of `a / 5`
  have hlow : (a / 5) * 2 ^ (55 - s) ≤ M / 2 ^ s := by
    rw [Nat.le_div_iff_mul_le hps0]
    calc (a / 5) * 2 ^ (55 - s) * 2 ^ s = (a / 5) * (2 ^ s * 2 ^ (55 - s)) := by ring
      _ = (a / 5) * 2 ^ 55 := by rw [hpow]
      _ ≤ M := by omega
  have hhigh : M / 2 ^ s + 1 < (a / 5 + 1) * 2 ^ (55 - s) := by
    have h2 : 2 ≤ 2 ^ (55 - s) := by
      calc 2 = 2 ^ 1 := by norm_num
        _ ≤ 2 ^ (55 - s) := Nat.pow_le_pow_right (by norm_num) (by omega)
    have : M / 2 ^ s < (a / 5 + 1) * 2 ^ (55 - s) - 1 := by
      rw [Nat.div_lt_iff_lt_mul hps0]
      have e1 : ((a / 5 + 1) * 2 ^ (55 - s) - 1) * 2 ^ s
          = (a / 5 + 1) * 2 ^ 55 - 2 ^ s := by
        rw [Nat.sub_mul, one_mul]
        congr 1
        calc (a / 5 + 1) * 2 ^ (55 - s) * 2 ^ s = (a / 5 + 1) * (2 ^ s * 2 ^ (55 - s)) := by ring
          _ = _ := by rw [hpow]
      rw [e1]
      omega
    have hpos : 1 ≤ (a / 5 + 1) * 2 ^ (55 - s) := Nat.one_le_iff_ne_zero.mpr (by positivity)
    omega
  have hqbit : bitLen q ≤ 84 := by
    apply bitLen_le_of_lt_pow
    have : M / 2 ^ s ≤ M := Nat.div_le_self _ _
    omega
  rw [if_neg (by unfold binary64; simp only; omega)]
  have hsign : ((7205759403792794 : Int) * (a : Int)).sign = 1 := by
    apply Int.sign_eq_one_of_pos
    positivity
  rw [hsign, one_mul]
  have hdiv : q / 2 ^ (55 - s) = a / 5 := by
    apply Nat.div_eq_of_lt_le
    · omega
    · omega
  have hk : a / 5 ≤ 2147483647 := by omega
  rw [truncInt_negExp q (55 - s) (a / 5) (-55 + 0 + (s : Int)) (by omega) (by omega) hdiv hk]
  norm_cast

theorem padding_eq (ub : Flt → Int) (n : Int) (h0 : 0 ≤ n) (h1 : n ≤ INT_MAX) :
    padding ub n = n / 5 :=
  castInt_of_trunc ub _ _ (padding_trunc n h0 h1)

/-! ## Monotonicity of rounding -/

theorem bitLen_mono {a b : Nat} (h : a ≤ b) : bitLen a ≤ bitLen b :=
  bitLen_le_of_lt_pow a _ (lt_of_le_of_lt h (lt_pow_bitLen b))

theorem bitLen_mul_pow (a k : Nat) (ha : a ≠ 0) : bitLen (a * 2 ^ k) = bitLen a + k := by
  apply le_antisymm
  · apply bitLen_le_of_lt_pow
    rw [pow_add]
    exact Nat.mul_lt_mul_of_pos_right (lt_pow_bitLen a) (by positivity)
  · have h1 := pow_bitLen_le a ha
    have h2 : 2 ^ (bitLen a - 1 + k) ≤ a * 2 ^ k := by
      rw [pow_add]
      exact Nat.mul_le_mul_right _ h1
    have h3 := lt_bitLen_of_pow_le _ _ h2
    have h4 : 0 < bitLen a := lt_bitLen_of_pow_le a 0 (by simpa using Nat.one_le_iff_ne_zero.2 ha)
    omega

theorem roundMag_mono (s : Nat) {a b : Nat} (h : a ≤ b) : roundMag a s ≤ roundMag b s := by
  have hp : 0 < 2 ^ s := by positivity
  have hq : a / 2 ^ s ≤ b / 2 ^ s := Nat.div_le_div_right h
  rcases Nat.lt_or_ge (a / 2 ^ s) (b / 2 ^ s) with hlt | hge
  · calc roundMag a s ≤ a / 2 ^ s + 1 := roundMag_le a s
      _ ≤ b / 2 ^ s := hlt
      _ ≤ roundMag b s := roundMag_ge b s
  · have heq : a / 2 ^ s = b / 2 ^ s := le_antisymm hq hge
    have ha := Nat.div_add_mod a (2 ^ s)
    have hb := Nat.div_add_mod b (2 ^ s)
    have hr : a % 2 ^ s ≤ b % 2 ^ s := by
      rw [heq] at ha
      omega
    unfold roundMag
    simp only [heq]
    split <;> split <;> omega

theorem roundMag_le_of_le_mul (a s k : Nat) (h : a ≤ k * 2 ^ s) : roundMag a s ≤ k := by
  have hp : 0 < 2 ^ s := by positivity
  rcases Nat.lt_or_ge a (k * 2 ^ s) with hlt | hge
  · have : a / 2 ^ s < k := (Nat.div_lt_iff_lt_mul hp).2 hlt
    have := roundMag_le a s
    omega
  · have heq : a = k * 2 ^ s := le_antisymm h hge
    subst heq
    unfold roundMag
    simp only [Nat.mul_div_cancel _ hp, Nat.mul_mod_left]
    rw [if_neg]
    omega

theorem roundMag_exact (c s : Nat) : roundMag (c * 2 ^ s) s = c := by
  have hp : 0 < 2 ^ s := by positivity
  unfold roundMag
  simp only [Nat.mul_div_cancel _ hp, Nat.mul_mod_left]
  rw [if_neg]
  omega

theorem roundMag_mul_pow (a s k : Nat) : roundMag (a * 2 ^ k) (s + k) = roundMag a s := by
  have hpk : 0 < 2 ^ k := by positivity
  have hps : 0 < 2 ^ s := by positivity
  have hdiv : a * 2 ^ k / 2 ^ (s + k) = a / 2 ^ s := by
    rw [pow_add, Nat.mul_div_mul_right _ _ hpk]
  have hmod : a * 2 ^ k % 2 ^ (s + k) = a % 2 ^ s * 2 ^ k := by
    rw [pow_add, Nat.mul_mod_mul_right]
  unfold roundMag
  simp only [hdiv, hmod]
  rw [pow_add]
  have e1 : (2 ^ s * 2 ^ k < 2 * (a % 2 ^ s * 2 ^ k)) ↔ (2 ^ s < 2 * (a % 2 ^ s)) := by
    rw [← mul_assoc]
    exact Nat.mul_lt_mul_right hpk
  have e2 : (2 * (a % 2 ^ s * 2 ^ k) = 2 ^ s * 2 ^ k) ↔ (2 * (a % 2 ^ s) = 2 ^ s) := by
    rw [← mul_assoc]
    exact Nat.mul_left_inj (by omega)
  simp only [e1, e2]

theorem roundScaled_mono (G : Nat) {A B : Nat} (h : A ≤ B) :
    roundScaled G A ≤ roundScaled G B := by
  unfold roundScaled
  have hL := bitLen_mono h
  have hs : dropBits G A ≤ dropBits G B := by unfold dropBits; omega
  rcases Nat.lt_or_ge (dropBits G A) (dropBits G B) with hlt | hge
  · -- the binade changes: a power of two separates the two rounded values
    have hσB : dropBits G B = bitLen B - 24 := by unfold dropBits at *; omega
    have hLB : 24 < bitLen B := by unfold dropBits at *; omega
    have hLA : bitLen A < bitLen B := by unfold dropBits at *; omega
    have hB0 : B ≠ 0 := by
      rintro rfl
      have : bitLen 0 = 0 := rfl
      omega
    set M := max (bitLen A) (dropBits G A) with hM
    have hMle : M ≤ bitLen B - 1 := by omega
    have h1 : roundMag A (dropBits G A) * 2 ^ dropBits G A ≤ 2 ^ M := by
      have hA : A ≤ 2 ^ (M - dropBits G A) * 2 ^ dropBits G A := by
        rw [← pow_add]
        have : M - dropBits G A + dropBits G A = M := by omega
        rw [this]
        exact le_trans (le_of_lt (lt_pow_bitLen A))
          (Nat.pow_le_pow_right (by norm_num) (by omega))
      have := roundMag_le_of_le_mul A _ _ hA
      calc roundMag A (dropBits G A) * 2 ^ dropBits G A
          ≤ 2 ^ (M - dropBits G A) * 2 ^ dropBits G A := Nat.mul_le_mul_right _ this
        _ = 2 ^ M := by rw [← pow_add]; congr 1; omega
    have h2 : 2 ^ (bitLen B - 1) ≤ roundMag B (dropBits G B) * 2 ^ dropBits G B := by
      have hB : 2 ^ (bitLen B - 1) ≤ B := pow_bitLen_le B hB0
      have hsplit : 2 ^ (bitLen B - 1) = 2 ^ 23 * 2 ^ dropBits G B := by
        rw [← pow_add]; congr 1; omega
      have hq : 2 ^ 23 ≤ B / 2 ^ dropBits G B := by
        rw [Nat.le_div_iff_mul_le (by positivity), ← hsplit]
        exact hB
      rw [hsplit]
      exact Nat.mul_le_mul_right _ (le_trans hq (roundMag_ge _ _))
    calc roundMag A (dropBits G A) * 2 ^ dropBits G A ≤ 2 ^ M := h1
      _ ≤ 2 ^ (bitLen B - 1) := Nat.pow_le_pow_right (by norm_num) hMle
      _ ≤ _ := h2
  · have heq : dropBits G A = dropBits G B := le_antisymm hs hge
    rw [heq]
    exact Nat.mul_le_mul_right _ (roundMag_mono _ h)

theorem roundScaled_le (G A c t : Nat) (h : A ≤ c * 2 ^ t) (ht : dropBits G A ≤ t) :
    roundScaled G A ≤ c * 2 ^ t := by
  unfold roundScaled
  have hsplit : c * 2 ^ t = c * 2 ^ (t - dropBits G A) * 2 ^ dropBits G A := by
    rw [mul_assoc, ← pow_add]; congr 2; omega
  rw [hsplit] at h ⊢
  exact Nat.mul_le_mul_right _ (roundMag_le_of_le_mul _ _ _ h)

theorem roundMag_le_self (a s : Nat) : roundMag a s ≤ a := by
  have h := roundMag_le_of_le_mul a s a (Nat.le_mul_of_pos_right a (by positivity))
  exact h

theorem truncInt_scaled (q Γ : Nat) (E : Int) (hE : -(Γ : Int) ≤ E)
    (hr : q * 2 ^ (E + Γ).toNat / 2 ^ Γ ≤ 2147483647) :
    truncInt (Flt.fin (q : Int) E) = some ((q * 2 ^ (E + Γ).toNat / 2 ^ Γ : Nat) : Int) := by
  by_cases h0 : 0 ≤ E
  · obtain ⟨t, rfl⟩ := Int.eq_ofNat_of_zero_le h0
    have e1 : ((t : Int) + Γ).toNat = t + Γ := by omega
    rw [e1] at hr ⊢
    have e2 : q * 2 ^ (t + Γ) / 2 ^ Γ = q * 2 ^ t := by
      rw [pow_add, ← mul_assoc, Nat.mul_div_cancel _ (by positivity)]
    rw [e2] at hr ⊢
    unfold truncInt
    simp only [Int.toNat_ofNat, h0, if_true]
    rw [if_pos]
    · push_cast; rfl
    · unfold INT_MIN INT_MAX
      have : (0 : Int) ≤ (q : Int) * 2 ^ t := by positivity
      have : ((q * 2 ^ t : Nat) : Int) ≤ 2147483647 := by exact_mod_cast hr
      push_cast at this
      omega
  · obtain ⟨t, ht⟩ : ∃ t : Nat, E = -(t : Int) := ⟨(-E).toNat, by omega⟩
    have htpos : 0 < t := by omega
    have htΓ : t ≤ Γ := by omega
    have e1 : (E + Γ).toNat = Γ - t := by omega
    rw [e1] at hr ⊢
    have e2 : q * 2 ^ (Γ - t) / 2 ^ Γ = q / 2 ^ t := by
      have : 2 ^ Γ = 2 ^ t * 2 ^ (Γ - t) := by rw [← pow_add]; congr 1; omega
      rw [this, Nat.mul_div_mul_right _ _ (by positivity)]
    rw [e2] at hr ⊢
    exact truncInt_negExp q t _ E ht htpos rfl hr

theorem roundNE_scaled (a : Nat) (e : Int) (Γ : Nat) (hΓ : 149 ≤ Γ) (he : -(Γ : Int) ≤ e)
    (hA : a * 2 ^ (e + Γ).toNat < 2 ^ (24 + Γ)) :
    ∃ (q : Nat) (E : Int), roundNE binary32 (a : Int) e = Flt.fin (q : Int) E ∧
      -(Γ : Int) ≤ E ∧ q * 2 ^ (E + Γ).toNat = roundScaled (Γ - 149) (a * 2 ^ (e + Γ).toNat) := by
  obtain ⟨k, hk⟩ : ∃ k : Nat, e = (k : Int) - Γ := ⟨(e + Γ).toNat, by omega⟩
  have hk2 : (e + Γ).toNat = k := by omega
  rw [hk2] at hA ⊢
  by_cases ha : a = 0
  · subst ha
    refine ⟨0, e + roundShift binary32 0 e, ?_, by omega, ?_⟩
    · unfold roundNE
      have hq : roundMag 0 (roundShift binary32 0 e) = 0 := by
        have := roundMag_le_self 0 (roundShift binary32 0 e)
        omega
      simp [hq]
    · unfold roundScaled
      have hq : roundMag 0 (dropBits (Γ - 149) 0) = 0 := by
        have := roundMag_le_self 0 (dropBits (Γ - 149) 0)
        omega
      simp [hq]
  · have hL1 : 0 < bitLen a := lt_bitLen_of_pow_le a 0 (by simpa using Nat.one_le_iff_ne_zero.2 ha)
    have hLA : bitLen (a * 2 ^ k) = bitLen a + k := bitLen_mul_pow a k ha
    have hLle : bitLen a + k ≤ 24 + Γ := by
      rw [← hLA]; exact bitLen_le_of_lt_pow _ _ hA
    have hσ : dropBits (Γ - 149) (a * 2 ^ k) = max (bitLen a + k - 24) (Γ - 149) := by
      unfold dropBits; rw [hLA]
    have hs : roundShift binary32 a e = (max (e + bitLen a - 24) (-149) - e).toNat := by
      unfold roundShift binary32; rfl
    have hsign : (a : Int).sign = 1 := Int.sign_eq_one_of_pos (by omega)
    by_cases hc : e ≤ max (e + bitLen a - 24) (-149)
    · -- low bits are dropped
      set s := roundShift binary32 a e with hsdef
      have hsk : dropBits (Γ - 149) (a * 2 ^ k) = s + k := by rw [hσ]; omega
      have hq : roundMag (a * 2 ^ k) (s + k) = roundMag a s := roundMag_mul_pow a s k
      set M := max (bitLen a) s with hM
      have hqle : roundMag a s ≤ 2 ^ (M - s) := by
        apply roundMag_le_of_le_mul
        rw [← pow_add]
        have : M - s + s = M := by omega
        rw [this]
        exact le_trans (le_of_lt (lt_pow_bitLen a)) (Nat.pow_le_pow_right (by norm_num) (by omega))
      have hqbit : bitLen (roundMag a s) ≤ M - s + 1 := by
        apply bitLen_le_of_lt_pow
        have hpos : 0 < 2 ^ (M - s) := by positivity
        rw [pow_succ]; omega
      refine ⟨roundMag a s, e + s, ?_, by omega, ?_⟩
      · unfold roundNE
        simp only [Int.natAbs_ofNat, ← hsdef, hsign, one_mul]
        rw [if_neg]
        unfold binary32
        simp only
        omega
      · unfold roundScaled
        rw [hsk, hq]
        congr 2
        omega
    · -- the product is exact
      have hs0 : roundShift binary32 a e = 0 := by rw [hs]; omega
      have hσk : dropBits (Γ - 149) (a * 2 ^ k) ≤ k := by rw [hσ]; omega
      refine ⟨a, e, ?_, he, ?_⟩
      · have := roundNE_exact binary32 (a : Int) e (by simpa using hs0)
          (by unfold binary32; simp only [Int.natAbs_ofNat]; omega)
        exact this
      · rw [hk2]
        unfold roundScaled
        set σ := dropBits (Γ - 149) (a * 2 ^ k) with hσdef
        have hsplit : a * 2 ^ k = a * 2 ^ (k - σ) * 2 ^ σ := by
          rw [mul_assoc, ← pow_add]; congr 2; omega
        have := roundMag_exact (a * 2 ^ (k - σ)) σ
        rw [← hsplit] at this
        rw [this, ← hsplit]

theorem truncInt_roundNE_scaled (a : Nat) (e : Int) (Γ : Nat) (hΓ : 149 ≤ Γ)
    (he : -(Γ : Int) ≤ e) (hA : a * 2 ^ (e + Γ).toNat < 2 ^ (24 + Γ)) :
    truncInt (roundNE binary32 (a : Int) e) =
      some ((roundScaled (Γ - 149) (a * 2 ^ (e + Γ).toNat) / 2 ^ Γ : Nat) : Int) := by
  obtain ⟨q, E, hr, hE, hv⟩ := roundNE_scaled a e Γ hΓ he hA
  have hσ : dropBits (Γ - 149) (a * 2 ^ (e + Γ).toNat) ≤ Γ := by
    have := bitLen_le_of_lt_pow _ _ hA
    unfold dropBits
    omega
  have hle : roundScaled (Γ - 149) (a * 2 ^ (e + Γ).toNat) ≤ 2 ^ 24 * 2 ^ Γ :=
    roundScaled_le _ _ _ _ (by rw [← pow_add]; exact le_of_lt hA) hσ
  have hdiv : roundScaled (Γ - 149) (a * 2 ^ (e + Γ).toNat) / 2 ^ Γ ≤ 2 ^ 24 :=
    Nat.div_le_of_le_mul (le_trans hle (le_of_eq (mul_comm _ _)))
  rw [hr, ← hv]
  apply truncInt_scaled q Γ E hE
  rw [hv]
  omega

theorem ofInt32_exact (n : Int) (h0 : 0 ≤ n) (h1 : n < 2 ^ 24) :
    Flt.ofInt binary32 n = Flt.fin n 0 := by
  have hb : bitLen n.natAbs ≤ 24 := by
    apply bitLen_le_of_lt_pow
    omega
  apply roundNE_exact
  · unfold roundShift binary32
    simp only
    omega
  · unfold binary32; simp only; omega

theorem le_fin_cases (v : Flt) (m e : Int) (h : Flt.le v (Flt.fin m e) = true)
    (hnn : Flt.le (Flt.fin 0 0) v = true) :
    ∃ m1 e1, v = Flt.fin m1 e1 ∧ 0 ≤ m1 ∧
      m1 * 2 ^ (e1 - min e1 e).toNat ≤ m * 2 ^ (e - min e1 e).toNat := by
  cases v with
  | nan => simp [Flt.le] at h
  | inf s => cases s <;> simp [Flt.le] at h hnn
  | fin m1 e1 =>
    refine ⟨m1, e1, rfl, ?_, by simpa [Flt.le] using h⟩
    simp only [Flt.le, zero_mul, decide_eq_true_eq] at hnn
    have hp : (0 : Int) < 2 ^ (e1 - min 0 e1).toNat := by positivity
    by_contra hneg
    have : m1 * 2 ^ (e1 - min 0 e1).toNat < 0 := mul_neg_of_neg_of_pos (by omega) hp
    omega

theorem scaled_le_of_le (a b n : Nat) (p1 p2 c : Nat) (h : a * 2 ^ p1 ≤ b * 2 ^ p2) :
    a * n * 2 ^ (p1 + c) ≤ b * n * 2 ^ (p2 + c) := by
  have e1 : a * n * 2 ^ (p1 + c) = (a * 2 ^ p1) * (n * 2 ^ c) := by rw [pow_add]; ring
  have e2 : b * n * 2 ^ (p2 + c) = (b * 2 ^ p2) * (n * 2 ^ c) := by rw [pow_add]; ring
  rw [e1, e2]
  exact Nat.mul_le_mul_right _ h

theorem scaleCoord_unit (ub : Flt → Int) (v1 v2 : Flt) (n : Int) (hn0 : 0 ≤ n)
    (hn : n < 2 ^ 24)
    (h0 : Flt.le (Flt.fin 0 0) v1 = true) (h12 : Flt.le v1 v2 = true)
    (h21 : Flt.le v2 (Flt.fin 1 0) = true) :
    0 ≤ scaleCoord ub v1 n ∧ scaleCoord ub v1 n ≤ scaleCoord ub v2 n ∧
      scaleCoord ub v2 n ≤ n := by
  -- the operands are finite and not negative
  have h02 : Flt.le (Flt.fin 0 0) v2 = true := by
    cases v2 with
    | nan => cases v1 <;> simp [Flt.le] at h12
    | inf s =>
      cases s
      · simp [Flt.le] at h21
      · cases v1 with
        | nan => simp [Flt.le] at h12
        | inf s1 => cases s1 <;> simp [Flt.le] at h12 h0
        | fin _ _ => simp [Flt.le] at h12
    | fin m2 e2 =>
      obtain ⟨m1, e1, rfl, hm1, hle⟩ := le_fin_cases v1 m2 e2 h12 h0
      simp only [Flt.le, zero_mul, decide_eq_true_eq]
      have hp1 : (0 : Int) ≤ m1 * 2 ^ (e1 - min e1 e2).toNat := by positivity
      have hp2 : (0 : Int) < 2 ^ (e2 - min e1 e2).toNat := by positivity
      have hm2 : 0 ≤ m2 := by
        by_contra hneg
        have : m2 * 2 ^ (e2 - min e1 e2).toNat < 0 := mul_neg_of_neg_of_pos (by omega) hp2
        omega
      positivity
  obtain ⟨m2, e2, rfl, hm2, hle2⟩ := le_fin_cases v2 1 0 h21 h02
  obtain ⟨m1, e1, rfl, hm1, hle1⟩ := le_fin_cases v1 m2 e2 h12 h0
  obtain ⟨a1, rfl⟩ := Int.eq_ofNat_of_zero_le hm1
  obtain ⟨a2, rfl⟩ := Int.eq_ofNat_of_zero_le hm2
  obtain ⟨N, rfl⟩ := Int.eq_ofNat_of_zero_le hn0
  have hN : N < 2 ^ 24 := by exact_mod_cast hn
  -- a common scale
  obtain ⟨Γ, hΓ, hΓ1, hΓ2⟩ : ∃ Γ : Nat, 149 ≤ Γ ∧ -(Γ : Int) ≤ e1 ∧ -(Γ : Int) ≤ e2 :=
    ⟨max 149 (max (-e1).toNat (-e2).toNat), by omega, by omega, by omega⟩
  have hA12 : a1 * N * 2 ^ (e1 + Γ).toNat ≤ a2 * N * 2 ^ (e2 + Γ).toNat := by
    have hnat : a1 * 2 ^ (e1 - min e1 e2).toNat ≤ a2 * 2 ^ (e2 - min e1 e2).toNat := by
      exact_mod_cast hle1
    have := scaled_le_of_le a1 a2 N _ _ (min e1 e2 + Γ).toNat hnat
    have x1 : (e1 - min e1 e2).toNat + (min e1 e2 + Γ).toNat = (e1 + Γ).toNat := by omega
    have x2 : (e2 - min e1 e2).toNat + (min e1 e2 + Γ).toNat = (e2 + Γ).toNat := by omega
    rw [x1, x2] at this
    exact this
  have hA2 : a2 * N * 2 ^ (e2 + Γ).toNat ≤ N * 2 ^ Γ := by
    have hnat : a2 * 2 ^ (e2 - min e2 0).toNat ≤ 1 * 2 ^ ((0 : Int) - min e2 0).toNat := by
      exact_mod_cast hle2
    have := scaled_le_of_le a2 1 N _ _ (min e2 0 + Γ).toNat hnat
    have x1 : (e2 - min e2 0).toNat + (min e2 0 + Γ).toNat = (e2 + Γ).toNat := by omega
    have x2 : ((0 : Int) - min e2 0).toNat + (min e2 0 + Γ).toNat = Γ := by omega
    rw [x1, x2, one_mul] at this
    exact this
  have hNlt : N * 2 ^ Γ < 2 ^ (24 + Γ) := by
    rw [pow_add]
    exact Nat.mul_lt_mul_of_pos_right hN (by positivity)
  have hsc : ∀ (a : Nat) (e : Int), -(Γ : Int) ≤ e → a * N * 2 ^ (e + Γ).toNat ≤ N * 2 ^ Γ →
      scaleCoord ub (Flt.fin (a : Int) e) (N : Int) =
        ((roundScaled (Γ - 149) (a * N * 2 ^ (e + Γ).toNat) / 2 ^ Γ : Nat) : Int) := by
    intro a e he hA
    unfold scaleCoord
    rw [ofInt32_exact (N : Int) (by omega) hn]
    simp only [Flt.mul, add_zero]
    have := truncInt_roundNE_scaled (a * N) e Γ hΓ he (lt_of_le_of_lt hA hNlt)
    rw [Nat.cast_mul] at this
    exact castInt_of_trunc ub _ _ this
  have hσ : dropBits (Γ - 149) (a2 * N * 2 ^ (e2 + Γ).toNat) ≤ Γ := by
    have := bitLen_le_of_lt_pow _ _ (lt_of_le_of_lt hA2 hNlt)
    unfold dropBits
    omega
  rw [hsc a1 e1 hΓ1 (le_trans hA12 hA2), hsc a2 e2 hΓ2 hA2]
  refine ⟨by positivity, ?_, ?_⟩
  · exact_mod_cast Nat.div_le_div_right (roundScaled_mono (Γ - 149) hA12)
  · have h1 := roundScaled_le (Γ - 149) _ N Γ hA2 hσ
    have h2 : roundScaled (Γ - 149) (a2 * N * 2 ^ (e2 + Γ).toNat) / 2 ^ Γ ≤ N :=
      Nat.div_le_of_le_mul (le_trans h1 (le_of_eq (mul_comm _ _)))
    exact_mod_cast h2

/-! ## Region padding -/

theorem padRect_eq (ub : Flt → Int) (W H : Int) (b : Rect) (hw : 0 ≤ b.width)
    (hh : 0 ≤ b.height) (hW : b.width ≤ INT_MAX) (hH : b.height ≤ INT_MAX) :
    padRect ub W H b = faceRect W H b (max b.width b.height / 5) := by
  unfold padRect
  rw [padding_eq ub _ (by omega) (by omega)]

/-- For a box inside a frame whose sides fit `int`, only the two sums
`width + 2 * padding` and `height + 2 * padding` of `faceRect` can overflow. -/
theorem faceRect_wrap (W H : Int) (b : Rect) (hb : b.inFrame W H)
    (hW : W ≤ INT_MAX) (hH : H ≤ INT_MAX) :
    faceRect W H b (max b.width b.height / 5) =
      ⟨max 0 (b.x - max b.width b.height / 5), max 0 (b.y - max b.width b.height / 5),
       min (wrapInt (b.width + 2 * (max b.width b.height / 5)))
         (W - max 0 (b.x - max b.width b.height / 5)),
       min (wrapInt (b.height + 2 * (max b.width b.height / 5)))
         (H - max 0 (b.y - max b.width b.height / 5))⟩ := by
  unfold Rect.inFrame at hb
  unfold INT_MAX at hW hH
  generalize hp : max b.width b.height / 5 = p
  have h1 : wrapInt (b.x - p) = b.x - p :=
    wrapInt_eq _ (by unfold INT_MIN; omega) (by unfold INT_MAX; omega)
  have h2 : wrapInt (b.y - p) = b.y - p :=
    wrapInt_eq _ (by unfold INT_MIN; omega) (by unfold INT_MAX; omega)
  have h3 : wrapInt (2 * p) = 2 * p :=
    wrapInt_eq _ (by unfold INT_MIN; omega) (by unfold INT_MAX; omega)
  have h4 : wrapInt (W - max 0 (b.x - p)) = W - max 0 (b.x - p) :=
    wrapInt_eq _ (by unfold INT_MIN; omega) (by unfold INT_MAX; omega)
  have h5 : wrapInt (H - max 0 (b.y - p)) = H - max 0 (b.y - p) :=
    wrapInt_eq _ (by unfold INT_MIN; omega) (by unfold INT_MAX; omega)
  unfold faceRect
  rw [h1, h2, h3, h4, h5]

/-- For a box inside the frame whose padded sides `width + 2 * padding` and
`height + 2 * padding` fit `int`, no step of the padding overflows. -/
theorem padRect_fits (ub : Flt → Int) (W H : Int) (b : Rect) (hb : b.inFrame W H)
    (hW : W ≤ INT_MAX) (hH : H ≤ INT_MAX)
    (hw : b.width + 2 * (max b.width b.height / 5) ≤ INT_MAX)
    (hh : b.height + 2 * (max b.width b.height / 5) ≤ INT_MAX) :
    padRect ub W H b =
      ⟨max 0 (b.x - max b.width b.height / 5), max 0 (b.y - max b.width b.height / 5),
       min (b.width + 2 * (max b.width b.height / 5))
         (W - max 0 (b.x - max b.width b.height / 5)),
       min (b.height + 2 * (max b.width b.height / 5))
         (H - max 0 (b.y - max b.width b.height / 5))⟩ := by
  have hb2 := hb
  unfold Rect.inFrame at hb2
  have hW2 := hW
  have hH2 := hH
  unfold INT_MAX at hW2 hH2
  rw [padRect_eq ub W H b (by omega) (by omega) (by unfold INT_MAX; omega)
    (by unfold INT_MAX; omega),
    faceRect_wrap W H b hb hW hH,
    wrapInt_eq (b.width + 2 * (max b.width b.height / 5)) (by unfold INT_MIN; omega) hw,
    wrapInt_eq (b.height + 2 * (max b.width b.height / 5)) (by unfold INT_MIN; omega) hh]

theorem padRect_fits_inFrame (ub : Flt → Int) (W H : Int) (b : Rect) (hb : b.inFrame W H)
    (hW : W ≤ INT_MAX) (hH : H ≤ INT_MAX)
    (hw : b.width + 2 * (max b.width b.height / 5) ≤ INT_MAX)
    (hh : b.height + 2 * (max b.width b.height / 5) ≤ INT_MAX) :
    (padRect ub W H b).inFrame W H := by
  rw [padRect_fits ub W H b hb hW hH hw hh]
  unfold Rect.inFrame at *
  simp only
  omega

/-- In a frame of at most 1533916891 columns and rows (the greatest `M` with
`M + 2 * (M / 5) <= 2147483647`) no step of the padding of a box inside the frame
overflows. -/
theorem padRect_small (ub : Flt → Int) (W H : Int) (b : Rect) (hb : b.inFrame W H)
    (hW : W ≤ 1533916891) (hH : H ≤ 1533916891) :
    padRect ub W H b =
      ⟨max 0 (b.x - max b.width b.height / 5), max 0 (b.y - max b.width b.height / 5),
       min (b.width + 2 * (max b.width b.height / 5))
         (W - max 0 (b.x - max b.width b.height / 5)),
       min (b.height + 2 * (max b.width b.height / 5))
         (H - max 0 (b.y - max b.width b.height / 5))⟩ := by
  have hb2 := hb
  unfold Rect.inFrame at hb2
  exact padRect_fits ub W H b hb (by unfold INT_MAX; omega) (by unfold INT_MAX; omega)
    (by unfold INT_MAX; omega) (by unfold INT_MAX; omega)

theorem padRect_small_inFrame (ub : Flt → Int) (W H : Int) (b : Rect) (hb : b.inFrame W H)
    (hW : W ≤ 1533916891) (hH : H ≤ 1533916891) :
    (padRect ub W H b).inFrame W H := by
  rw [padRect_small ub W H b hb hW hH]
  unfold Rect.inFrame at *
  simp only
  omega

theorem padRect_small_fixed_iff (ub : Flt → Int) (W H : Int) (b : Rect) (hb : b.inFrame W H)
    (hW : W ≤ 1533916891) (hH : H ≤ 1533916891) :
    padRect ub W H b = b ↔
      (max b.width b.height < 5 ∨ (b.x = 0 ∧ b.y = 0 ∧ b.width = W ∧ b.height = H)) := by
  rw [padRect_small ub W H b hb hW hH]
  unfold Rect.inFrame at hb
  obtain ⟨x, y, w, h⟩ := b
  simp only [Rect.mk.injEq] at *
  omega

/-- The crop of a rectangle inside a frame whose sides fit `int` is accepted. -/
theorem roi_inFrame (m : Mat) (r : Rect) (hr : r.inFrame m.cols m.rows)
    (hW : m.cols ≤ INT_MAX) (hH : m.rows ≤ INT_MAX) :
    m.roi r = some ⟨r.width, r.height, fun i j => m.px (r.y + i) (r.x + j)⟩ := by
  unfold Rect.inFrame at hr
  have hW2 := hW
  have hH2 := hH
  unfold INT_MAX at hW2 hH2
  unfold Mat.roi
  rw [wrapInt_eq (r.x + r.width) (by unfold INT_MIN; omega) (by unfold INT_MAX; omega),
    wrapInt_eq (r.y + r.height) (by unfold INT_MIN; omega) (by unfold INT_MAX; omega),
    if_pos ⟨hr.1, hr.2.2.1, hr.2.2.2.2.1, hr.2.1, hr.2.2.2.1, hr.2.2.2.2.2⟩]

/-- The bound 1533916891 is the greatest one: with 1533916892 rows the zero-width
box (0, 0, 0, 1533916892) lies inside the frame, `height + 2 * padding` is `2^31`,
and the padded rectangle has the height -2147483648. -/
theorem padRect_bound_tight (ub : Flt → Int) :
    (⟨0, 0, 0, 1533916892⟩ : Rect).inFrame 1 1533916892 ∧
    padRect ub 1 1533916892 ⟨0, 0, 0, 1533916892⟩ = ⟨0, 0, 1, -2147483648⟩ := by
  refine ⟨by unfold Rect.inFrame; decide, ?_⟩
  rw [padRect_eq ub 1 1533916892 ⟨0, 0, 0, 1533916892⟩ (by decide) (by decide) (by decide)
    (by decide)]
  decide

/-- C4, counterexample: in a frame of 2147483647 columns and 100 rows the box
(0, 10, 1932735232, 80) lies inside the frame, its padding is 386547046, the sum
`width + 2 * padding` = 2705829324 overflows `int`, and the padded rectangle is
(0, 0, -1589137972, 100), of negative width.  Already with 1533916892 columns the
box (0, 0, 1533916892, 1) is padded to the width -2147483648. -/
theorem padRect_overflows :
    (⟨0, 10, 1932735232, 80⟩ : Rect).inFrame 2147483647 100 ∧
    (∀ ub : Flt → Int,
      padRect ub 2147483647 100 ⟨0, 10, 1932735232, 80⟩ = ⟨0, 0, -1589137972, 100⟩) ∧
    ¬ (0 : Int) ≤ -1589137972 ∧
    (⟨0, 0, 1533916892, 1⟩ : Rect).inFrame 1533916892 1 ∧
    (∀ ub : Flt → Int,
      padRect ub 1533916892 1 ⟨0, 0, 1533916892, 1⟩ = ⟨0, 0, -2147483648, 1⟩) := by
  refine ⟨by unfold Rect.inFrame; decide, ?_, by decide, by unfold Rect.inFrame; decide, ?_⟩
  · intro ub
    rw [padRect_eq ub 2147483647 100 ⟨0, 10, 1932735232, 80⟩ (by decide) (by decide)
      (by decide) (by decide)]
    decide
  · intro ub
    rw [padRect_eq ub 1533916892 1 ⟨0, 0, 1533916892, 1⟩ (by decide) (by decide)
      (by decide) (by decide)]
    decide

/-- C4, amended: for a box inside a `W × H` frame, `W` and `H` of type `int`, the
padding is `floor(0.2 * max(w, h)) = max(w, h) / 5`, and the padded rectangle of
`processFrame` lies inside the frame exactly when the sums `w + 2p` and `h + 2p` do
not exceed the greatest `int`; for `W` and `H` up to 1533916891 that is so for
every box inside the frame, and the rectangle is
`(max(0, x-p), max(0, y-p), min(w+2p, W-x'), min(h+2p, H-y'))`. -/
theorem padRect_in_bounds (ub : Flt → Int) (W H : Int) (b : Rect)
    (hx : 0 ≤ b.x) (hy : 0 ≤ b.y) (hw : 0 ≤ b.width) (hh : 0 ≤ b.height)
    (hxw : b.x + b.width ≤ W) (hyh : b.y + b.height ≤ H)
    (hW : W ≤ INT_MAX) (hH : H ≤ INT_MAX) :
    padding ub (max b.width b.height) = max b.width b.height / 5 ∧
    ((0 ≤ (padRect ub W H b).x ∧ 0 ≤ (padRect ub W H b).y ∧
        0 ≤ (padRect ub W H b).width ∧ 0 ≤ (padRect ub W H b).height ∧
        (padRect ub W H b).x + (padRect ub W H b).width ≤ W ∧
        (padRect ub W H b).y + (padRect ub W H b).height ≤ H) ↔
      (b.width + 2 * (max b.width b.height / 5) ≤ INT_MAX ∧
        b.height + 2 * (max b.width b.height / 5) ≤ INT_MAX)) ∧
    (W ≤ 1533916891 → H ≤ 1533916891 →
      ∃ p r, p = max b.width b.height / 5 ∧
        r = ⟨max 0 (b.x - p), max 0 (b.y - p),
              min (b.width + 2 * p) (W - max 0 (b.x - p)),
              min (b.height + 2 * p) (H - max 0 (b.y - p))⟩ ∧
        padRect ub W H b = r ∧
        0 ≤ r.x ∧ 0 ≤ r.y ∧ 0 ≤ r.width ∧ 0 ≤ r.height ∧
        r.x + r.width ≤ W ∧ r.y + r.height ≤ H) := by
  have hb : b.inFrame W H := ⟨hx, hy, hw, hh, hxw, hyh⟩
  have hWm := hW
  have hHm := hH
  unfold INT_MAX at hWm hHm
  have hpad := padRect_eq ub W H b hw hh (by unfold INT_MAX; omega) (by unfold INT_MAX; omega)
  have hwrap := faceRect_wrap W H b hb hW hH
  refine ⟨padding_eq ub _ (by omega) (by unfold INT_MAX; omega), ?_, ?_⟩
  · rw [hpad, hwrap]
    simp only
    constructor
    · intro h
      constructor
      · by_contra hc
        have := wrapInt_over (b.width + 2 * (max b.width b.height / 5)) (by omega) (by omega)
        omega
      · by_contra hc
        have := wrapInt_over (b.height + 2 * (max b.width b.height / 5)) (by omega) (by omega)
        omega
    · intro h
      rw [wrapInt_eq (b.width + 2 * (max b.width b.height / 5)) (by unfold INT_MIN; omega) h.1,
        wrapInt_eq (b.height + 2 * (max b.width b.height / 5)) (by unfold INT_MIN; omega) h.2]
      omega
  · intro hW2 hH2
    refine ⟨_, _, rfl, rfl, padRect_small ub W H b hb hW2 hH2, ?_⟩
    simp only
    omega

theorem padRect_in_bounds_witness :
    ∃ p r, p = max (40 : Int) 40 / 5 ∧
      r = ⟨max 0 (10 - p), max 0 (10 - p),
            min (40 + 2 * p) (100 - max 0 (10 - p)),
            min (40 + 2 * p) (100 - max 0 (10 - p))⟩ ∧
      padRect (fun _ => 0) 100 100 ⟨10, 10, 40, 40⟩ = r ∧
      0 ≤ r.x ∧ 0 ≤ r.y ∧ 0 ≤ r.width ∧ 0 ≤ r.height ∧
      r.x + r.width ≤ 100 ∧ r.y + r.height ≤ 100 :=
  (padRect_in_bounds (fun _ => 0) 100 100 ⟨10, 10, 40, 40⟩ (by decide) (by decide) (by decide)
    (by decide) (by decide) (by decide) (by decide) (by decide)).2.2 (by decide) (by decide)

/-- C8, counterexample: in a 1000 × 1000 frame the box (50, 50, 10, 10) is padded to
(48, 48, 14, 14), and padding that box again gives (46, 46, 18, 18). -/
theorem padRect_twice_differs :
    (∀ ub : Flt → Int, padRect ub 1000 1000 ⟨50, 50, 10, 10⟩ = ⟨48, 48, 14, 14⟩) ∧
    (∀ ub : Flt → Int, padRect ub 1000 1000 ⟨48, 48, 14, 14⟩ = ⟨46, 46, 18, 18⟩) ∧
    (⟨46, 46, 18, 18⟩ : Rect) ≠ ⟨48, 48, 14, 14⟩ := by
  refine ⟨?_, ?_, by decide⟩
  · intro ub
    rw [padRect_eq ub 1000 1000 ⟨50, 50, 10, 10⟩ (by decide) (by decide) (by decide)
      (by decide)]
    decide
  · intro ub
    rw [padRect_eq ub 1000 1000 ⟨48, 48, 14, 14⟩ (by decide) (by decide) (by decide)
      (by decide)]
    decide

/-- C8, amended: in a frame of at most 1533916891 columns and rows (so that no sum
of the padding step overflows `int`), for a box `b` inside the frame the padded
box `r` lies inside the frame, and padding `r` again returns `r` exactly when both
sides of `r` are shorter than 5 pixels (its padding is 0) or `r` is the whole
frame. -/
theorem padRect_idempotent_iff (ub : Flt → Int) (W H : Int) (b : Rect)
    (hx : 0 ≤ b.x) (hy : 0 ≤ b.y) (hw : 0 ≤ b.width) (hh : 0 ≤ b.height)
    (hxw : b.x + b.width ≤ W) (hyh : b.y + b.height ≤ H)
    (hW : W ≤ 1533916891) (hH : H ≤ 1533916891) :
    ∃ r, padRect ub W H b = r ∧
      (0 ≤ r.x ∧ 0 ≤ r.y ∧ 0 ≤ r.width ∧ 0 ≤ r.height ∧
        r.x + r.width ≤ W ∧ r.y + r.height ≤ H) ∧
      (padRect ub W H r = r ↔
        (max r.width r.height < 5 ∨ (r.x = 0 ∧ r.y = 0 ∧ r.width = W ∧ r.height = H))) := by
  have hb : b.inFrame W H := ⟨hx, hy, hw, hh, hxw, hyh⟩
  have hr := padRect_small_inFrame ub W H b hb hW hH
  exact ⟨_, rfl, hr, padRect_small_fixed_iff ub W H _ hr hW hH⟩

theorem padRect_idempotent_iff_witness :
    ∃ r, padRect (fun _ => 0) 100 100 ⟨10, 10, 3, 4⟩ = r ∧
      (0 ≤ r.x ∧ 0 ≤ r.y ∧ 0 ≤ r.width ∧ 0 ≤ r.height ∧
        r.x + r.width ≤ 100 ∧ r.y + r.height ≤ 100) ∧
      (padRect (fun _ => 0) 100 100 r = r ↔
        (max r.width r.height < 5 ∨ (r.x = 0 ∧ r.y = 0 ∧ r.width = 100 ∧ r.height = 100))) :=
  padRect_idempotent_iff (fun _ => 0) 100 100 ⟨10, 10, 3, 4⟩ (by decide) (by decide) (by decide)
    (by decide) (by decide) (by decide) (by decide) (by decide)

/-- C10, counterexample: in a 1000 × 1000 frame the zero-width box (50, 50, 0, 10) is
padded to (48, 48, 4, 14), of positive width and height. -/
theorem padRect_degenerate_grows :
    (∀ ub : Flt → Int, padRect ub 1000 1000 ⟨50, 50, 0, 10⟩ = ⟨48, 48, 4, 14⟩) ∧
    ¬ ((4 : Int) = 0 ∨ (14 : Int) = 0) := by
  refine ⟨?_, by decide⟩
  intro ub
  rw [padRect_eq ub 1000 1000 ⟨50, 50, 0, 10⟩ (by decide) (by decide) (by decide) (by decide)]
  decide

/-- C10, amended: in a frame of at least 1 and at most 1533916891 columns and rows,
for a zero-area box inside the frame, the padded rectangle has zero area exactly
when the longer side of the box is shorter than 5 pixels; the padding is then 0
and the box is returned as it is, and otherwise the padded rectangle has positive
width and positive height. -/
theorem padRect_degenerate_iff (ub : Flt → Int) (W H : Int) (b : Rect)
    (hx : 0 ≤ b.x) (hy : 0 ≤ b.y) (hw : 0 ≤ b.width) (hh : 0 ≤ b.height)
    (hxw : b.x + b.width ≤ W) (hyh : b.y + b.height ≤ H)
    (hW1 : 1 ≤ W) (hH1 : 1 ≤ H) (hW : W ≤ 1533916891) (hH : H ≤ 1533916891)
    (hz : b.width = 0 ∨ b.height = 0) :
    ∃ r, padRect ub W H b = r ∧
      ((r.width = 0 ∨ r.height = 0) ↔ max b.width b.height < 5) ∧
      (max b.width b.height < 5 → r = b) ∧
      (5 ≤ max b.width b.height → 0 < r.width ∧ 0 < r.height) := by
  have hb : b.inFrame W H := ⟨hx, hy, hw, hh, hxw, hyh⟩
  refine ⟨_, rfl, ?_, ?_, ?_⟩
  · rw [padRect_small ub W H b hb hW hH]
    simp only
    omega
  · intro h5
    rw [padRect_small ub W H b hb hW hH]
    obtain ⟨x, y, w, h⟩ := b
    simp only [Rect.mk.injEq] at *
    omega
  · intro h5
    rw [padRect_small ub W H b hb hW hH]
    simp only
    omega

theorem padRect_degenerate_iff_witness :
    ∃ r, padRect (fun _ => 0) 100 100 ⟨10, 10, 0, 30⟩ = r ∧
      ((r.width = 0 ∨ r.height = 0) ↔ max (0 : Int) 30 < 5) ∧
      (max (0 : Int) 30 < 5 → r = ⟨10, 10, 0, 30⟩) ∧
      (5 ≤ max (0 : Int) 30 → 0 < r.width ∧ 0 < r.height) :=
  padRect_degenerate_iff (fun _ => 0) 100 100 ⟨10, 10, 0, 30⟩ (by decide) (by decide)
    (by decide) (by decide) (by decide) (by decide) (by decide) (by decide) (by decide)
    (by decide) (by decide)

/-! ## Label synthesis -/

theorem isDigit_ne_dash (d : Char) (h : isDigit d = true) :
    d ≠ '-' ∧ d ≠ '+' ∧ isSpace d = false := by
  unfold isDigit at h
  simp only [Bool.and_eq_true, decide_eq_true_eq] at h
  refine ⟨?_, ?_, ?_⟩
  · rintro rfl; revert h; decide
  · rintro rfl; revert h; decide
  · unfold isSpace
    have : d ≠ ' ' := by rintro rfl; revert h; decide
    simp only [Bool.or_eq_false_iff, decide_eq_false_iff_not, Bool.and_eq_false_imp,
      decide_eq_true_eq]
    refine ⟨this, ?_⟩
    omega

theorem findDash_digits (ds rest : List Char) (hd : ∀ d ∈ ds, isDigit d = true) :
    findDash (ds ++ '-' :: rest) = some ds.length := by
  induction ds with
  | nil => simp [findDash]
  | cons d ds ih =>
    have h1 := (isDigit_ne_dash d (hd d (List.mem_cons_self _ _))).1
    have h2 := ih (fun x hx => hd x (List.mem_cons_of_mem _ hx))
    simp [findDash, h1, h2]

theorem takeWhile_digits (ds rest : List Char) (hd : ∀ d ∈ ds, isDigit d = true) :
    (ds ++ '-' :: rest).takeWhile isDigit = ds := by
  induction ds with
  | nil =>
    have : isDigit '-' = false := by decide
    simp [List.takeWhile, this]
  | cons d ds ih =>
    have h1 := hd d (List.mem_cons_self _ _)
    have h2 := ih (fun x hx => hd x (List.mem_cons_of_mem _ hx))
    simp [List.takeWhile, h1, h2]

theorem takeWhile_digits_self (ds : List Char) (hd : ∀ d ∈ ds, isDigit d = true) :
    ds.takeWhile isDigit = ds := by
  induction ds with
  | nil => rfl
  | cons d ds ih =>
    have h1 := hd d (List.mem_cons_self _ _)
    have h2 := ih (fun x hx => hd x (List.mem_cons_of_mem _ hx))
    simp [List.takeWhile, h1, h2]

theorem stoi_digits (ds tl : List Char) (hne : ds ≠ []) (hd : ∀ d ∈ ds, isDigit d = true)
    (hr : digitsVal ds ≤ 2147483647) (htw : (ds ++ tl).takeWhile isDigit = ds) :
    stoi (ds ++ tl) = some (digitsVal ds : Int) := by
  obtain ⟨d, ds1, rfl⟩ := List.exists_cons_of_ne_nil hne
  obtain ⟨n1, n2, n3⟩ := isDigit_ne_dash d (hd d (List.mem_cons_self _ _))
  unfold stoi
  have hdrop : (d :: ds1 ++ tl).dropWhile isSpace = d :: ds1 ++ tl := by
    simp [List.dropWhile, n3]
  simp only [hdrop]
  have hh : (d :: ds1 ++ tl).head? = some d := rfl
  simp only [hh, Option.some.injEq, n1, n2, or_self, if_false, decide_False, htw]
  rw [if_neg (by simp)]
  simp only [Bool.false_eq_true, if_false]
  rw [if_pos]
  unfold INT_MIN INT_MAX
  omega

/-- C5: on each of the 8 strings of `ageList`, `getPersonLabel` returns "Boy"
(for "Male") or "Girl" (for any other gender, "Female" in particular) when the
parsed lower bound is below 18, that is for the first four bins, and "Man" or
"Woman" for the last four. -/
theorem getPersonLabel_ageList :
    ageList.map (fun a => (substr1 a.data (findDash a.data)).bind stoi)
      = [some 0, some 4, some 8, some 15, some 25, some 38, some 48, some 60] ∧
    ageList.map (getPersonLabel "Male")
      = [some "Boy", some "Boy", some "Boy", some "Boy",
         some "Man", some "Man", some "Man", some "Man"] ∧
    ageList.map (getPersonLabel "Female")
      = [some "Girl", some "Girl", some "Girl", some "Girl",
         some "Woman", some "Woman", some "Woman", some "Woman"] := by
  decide

/-- C7, counterexample: "(5-9)" is none of the 8 bins and `getPersonLabel` labels it. -/
theorem getPersonLabel_foreign_bin :
    "(5-9)" ∉ ageList ∧ getPersonLabel "Male" "(5-9)" = some "Boy" ∧
      getPersonLabel "Female" "(20)" = some "Woman" := by
  decide

/-- C7, amended: `getPersonLabel` returns a label for every string made of one
character, a non-empty run of decimal digits of value at most 2147483647, a hyphen
and any tail, juvenile exactly when the number is below 18; and it fails on every
string whose second character is neither a blank, a sign nor a digit, and on the
empty string. -/
theorem getPersonLabel_accepts :
    (∀ (gender : String) (c : Char) (ds rest : List Char), ds ≠ [] →
      (∀ d ∈ ds, isDigit d = true) → digitsVal ds ≤ 2147483647 →
      getPersonLabel gender ⟨c :: (ds ++ '-' :: rest)⟩ =
        some (if gender = "Male" then (if digitsVal ds < 18 then "Boy" else "Man")
              else (if digitsVal ds < 18 then "Girl" else "Woman"))) ∧
    (∀ (gender : String) (c d : Char) (rest : List Char),
      isSpace d = false → isDigit d = false → d ≠ '-' → d ≠ '+' →
      getPersonLabel gender ⟨c :: d :: rest⟩ = none) ∧
    (∀ gender : String, getPersonLabel gender "" = none) := by
  refine ⟨?_, ?_, ?_⟩
  · intro gender c ds rest hne hd hr
    have hsub : substr1 (c :: (ds ++ '-' :: rest)) (findDash (c :: (ds ++ '-' :: rest)))
        = some ds ∨ substr1 (c :: (ds ++ '-' :: rest)) (findDash (c :: (ds ++ '-' :: rest)))
        = some (ds ++ '-' :: rest) := by
      by_cases hc : c = '-'
      · right; simp [findDash, substr1, hc]
      · left; simp [findDash, substr1, hc, findDash_digits ds rest hd]
    have hst : ∀ sub, substr1 (c :: (ds ++ '-' :: rest)) (findDash (c :: (ds ++ '-' :: rest)))
        = some sub → stoi sub = some (digitsVal ds : Int) := by
      intro sub hs
      rcases hsub with h | h
      · rw [h] at hs
        cases hs
        have := stoi_digits ds [] hne hd hr (by simpa using takeWhile_digits_self ds hd)
        simpa using this
      · rw [h] at hs
        cases hs
        exact stoi_digits ds ('-' :: rest) hne hd hr (takeWhile_digits ds rest hd)
    unfold getPersonLabel
    simp only
    rcases hsub with h | h
    · rw [h]
      simp only [Option.bind_eq_bind, Option.some_bind, hst _ h]
      by_cases hg : gender = "Male" <;> simp [hg]
    · rw [h]
      simp only [Option.bind_eq_bind, Option.some_bind, hst _ h]
      by_cases hg : gender = "Male" <;> simp [hg]
  · intro gender c d rest hs hd h1 h2
    have hstoi : ∀ tl, stoi (d :: tl) = none := by
      intro tl
      unfold stoi
      have hdrop : (d :: tl).dropWhile isSpace = d :: tl := by simp [List.dropWhile, hs]
      simp only [hdrop]
      have hh : (d :: tl).head? = some d := rfl
      simp [hh, h1, h2, List.takeWhile, hd]
    have hsub : ∃ tl, substr1 (c :: d :: rest) (findDash (c :: d :: rest)) = some (d :: tl) := by
      by_cases hc : c = '-'
      · exact ⟨rest, by simp [findDash, substr1, hc]⟩
      · cases hf : findDash rest with
        | none => exact ⟨rest, by simp [findDash, substr1, hc, h1, hf]⟩
        | some k => exact ⟨rest.take k, by simp [findDash, substr1, hc, h1, hf]⟩
    obtain ⟨tl, htl⟩ := hsub
    unfold getPersonLabel
    simp only [htl, Option.bind_eq_bind, Option.some_bind, hstoi tl, Option.none_bind]
  · intro gender
    rfl

theorem getPersonLabel_accepts_witness :
    getPersonLabel "Male" ⟨'(' :: (['5'] ++ '-' :: ['9', ')'])⟩ =
        some (if "Male" = "Male" then (if digitsVal ['5'] < 18 then "Boy" else "Man")
              else (if digitsVal ['5'] < 18 then "Girl" else "Woman")) ∧
    getPersonLabel "Male" ⟨'(' :: 'a' :: ['-', '1', ')']⟩ = none :=
  ⟨getPersonLabel_accepts.1 "Male" '(' ['5'] ['9', ')'] (by decide) (by decide) (by decide),
   getPersonLabel_accepts.2.1 "Male" '(' 'a' ['-', '1', ')'] (by decide) (by decide)
     (by decide) (by decide)⟩

/-! ## Face localization -/

theorem highlightLoop_eq (ub : Flt → Int) (cols rows : Int) (thr : Flt) (ds : List Detection) :
    ∀ acc : List Rect, highlightLoop ub cols rows thr ds acc =
      acc ++ (ds.filter (fun d => Flt.gt d.confidence thr)).map
        (fun d => detectionBox ub d cols rows) := by
  induction ds with
  | nil =>
    intro acc
    simp [highlightLoop]
  | cons d ds ih =>
    intro acc
    unfold highlightLoop
    by_cases hc : Flt.gt d.confidence thr = true
    · simp only [hc, if_true, List.filter_cons, ih, List.map_cons, List.append_assoc,
        List.singleton_append]
    · simp only [hc, if_false, List.filter_cons, ih]
      simp

theorem gt_threshold_iff (m e : Int) (hm : m < 2 ^ 24) :
    Flt.gt (Flt.fin m e) (Flt.fin 11744051 (-24)) = true ↔
      (7 / 10 : ℚ) < (m : ℚ) * (2 : ℚ) ^ e := by
  unfold Flt.gt
  simp only [decide_eq_true_eq]
  by_cases he : -24 ≤ e
  · obtain ⟨k, hk⟩ : ∃ k : Nat, e = (k : Int) - 24 := ⟨(e + 24).toNat, by omega⟩
    subst hk
    have h1 : min ((k : Int) - 24) (-24) = -24 := by omega
    have h2 : ((-24 : Int) - -24).toNat = 0 := by decide
    have h3 : ((k : Int) - 24 - -24).toNat = k := by omega
    rw [h1, h2, h3]
    have hz : (2 : ℚ) ^ ((k : Int) - 24) = (2 : ℚ) ^ k / 2 ^ 24 := by
      rw [zpow_sub₀ (by norm_num)]
      norm_cast
    rw [hz]
    have key : (7 / 10 : ℚ) < (m : ℚ) * ((2 : ℚ) ^ k / 2 ^ 24) ↔
        (117440512 : ℚ) < 10 * ((m * 2 ^ k : Int) : ℚ) := by
      push_cast
      constructor
      · intro h
        have : (7 / 10 : ℚ) * (10 * 2 ^ 24) < (m : ℚ) * ((2 : ℚ) ^ k / 2 ^ 24) * (10 * 2 ^ 24) :=
          mul_lt_mul_of_pos_right h (by norm_num)
        have e2 : (m : ℚ) * ((2 : ℚ) ^ k / 2 ^ 24) * (10 * 2 ^ 24) = 10 * (m * 2 ^ k) := by
          field_simp
          ring
        rw [e2] at this
        norm_num at this ⊢
        linarith
      · intro h
        rw [show (m : ℚ) * ((2 : ℚ) ^ k / 2 ^ 24) = (10 * (m * 2 ^ k)) / (10 * 2 ^ 24) by
          field_simp; ring]
        rw [lt_div_iff₀ (by norm_num)]
        norm_num at h ⊢
        linarith
    rw [key]
    have key2 : (117440512 : ℚ) < 10 * ((m * 2 ^ k : Int) : ℚ) ↔
        (117440512 : Int) < 10 * (m * 2 ^ k) := by
      norm_cast
    rw [key2]
    constructor <;> intro h <;> omega
  · have h1 : min e (-24) = e := by omega
    have h2 : (e - e).toNat = 0 := by omega
    rw [h1, h2]
    obtain ⟨k, hk⟩ : ∃ k : Nat, e = -25 - (k : Int) := ⟨(-25 - e).toNat, by omega⟩
    subst hk
    have h3 : ((-24 : Int) - (-25 - (k : Int))).toNat = k + 1 := by omega
    rw [h3]
    have hp : (1 : Int) ≤ 2 ^ k := by
      have : (0 : Int) < 2 ^ k := by positivity
      omega
    constructor
    · intro h
      exfalso
      rw [pow_succ] at h
      norm_num at hm
      nlinarith
    · intro h
      exfalso
      have hz : (2 : ℚ) ^ (-25 - (k : Int)) = 1 / (2 ^ 25 * 2 ^ k) := by
        rw [zpow_sub₀ (by norm_num)]
        rw [zpow_neg]
        norm_cast
        field_simp
      rw [hz] at h
      have hmq : (m : ℚ) < 2 ^ 24 := by exact_mod_cast hm
      have hkq : (1 : ℚ) ≤ 2 ^ k := by exact_mod_cast hp
      have hpos : (0 : ℚ) < 2 ^ 25 * 2 ^ k := by positivity
      rw [mul_one_div, lt_div_iff₀ hpos] at h
      norm_num at h hmq
      nlinarith

theorem highlightFace_eq (ub : Flt → Int) (net : Mat → Option (List Detection)) (frame : Mat)
    (prev : List Rect) (thr : Flt) :
    highlightFace ub net frame prev thr =
      (net frame).map (fun dets =>
        (dets.filter (fun d => Flt.gt d.confidence thr)).map
          (fun d => detectionBox ub d frame.cols frame.rows)) := by
  unfold highlightFace clear
  cases hn : net frame with
  | none => rfl
  | some dets =>
    simp only [Option.bind_eq_bind, Option.some_bind, highlightLoop_eq, Option.pure_def,
      Option.map_some', List.nil_append]

theorem highlightFace_eval (ub : Flt → Int) (net : Mat → Option (List Detection)) (frame : Mat)
    (prev : List Rect) (thr : Flt) (dets kept : List Detection) (hn : net frame = some dets)
    (hf : dets.filter (fun d => Flt.gt d.confidence thr) = kept) :
    highlightFace ub net frame prev thr =
      some (kept.map (fun d => detectionBox ub d frame.cols frame.rows)) := by
  rw [highlightFace_eq, hn, Option.map_some', hf]

/-- The box of a row whose four scaled corners are in the range of `int`. -/
theorem detectionBox_of_trunc (ub : Flt → Int) (d : Detection) (cols rows : Int)
    (X1 Y1 X2 Y2 : Int)
    (h1 : truncInt (Flt.mul binary32 d.x1 (Flt.ofInt binary32 cols)) = some X1)
    (h2 : truncInt (Flt.mul binary32 d.y1 (Flt.ofInt binary32 rows)) = some Y1)
    (h3 : truncInt (Flt.mul binary32 d.x2 (Flt.ofInt binary32 cols)) = some X2)
    (h4 : truncInt (Flt.mul binary32 d.y2 (Flt.ofInt binary32 rows)) = some Y2) :
    detectionBox ub d cols rows =
      ⟨max 0 X1, max 0 Y1, wrapInt (min (wrapInt (cols - 1)) X2 - max 0 X1),
        wrapInt (min (wrapInt (rows - 1)) Y2 - max 0 Y1)⟩ := by
  unfold detectionBox scaleCoord
  rw [castInt_of_trunc ub _ X1 h1, castInt_of_trunc ub _ Y1 h2, castInt_of_trunc ub _ X2 h3,
    castInt_of_trunc ub _ Y2 h4]

/-- The boxes returned for a detector output of one row above the threshold whose
four scaled corners are in the range of `int`. -/
theorem highlightFace_single (ub : Flt → Int) (net : Mat → Option (List Detection))
    (frame : Mat) (prev : List Rect) (thr : Flt) (d : Detection) (X1 Y1 X2 Y2 : Int)
    (hn : net frame = some [d]) (hc : Flt.gt d.confidence thr = true)
    (h1 : truncInt (Flt.mul binary32 d.x1 (Flt.ofInt binary32 frame.cols)) = some X1)
    (h2 : truncInt (Flt.mul binary32 d.y1 (Flt.ofInt binary32 frame.rows)) = some Y1)
    (h3 : truncInt (Flt.mul binary32 d.x2 (Flt.ofInt binary32 frame.cols)) = some X2)
    (h4 : truncInt (Flt.mul binary32 d.y2 (Flt.ofInt binary32 frame.rows)) = some Y2) :
    highlightFace ub net frame prev thr =
      some [⟨max 0 X1, max 0 Y1, wrapInt (min (wrapInt (frame.cols - 1)) X2 - max 0 X1),
        wrapInt (min (wrapInt (frame.rows - 1)) Y2 - max 0 Y1)⟩] := by
  have hf : [d].filter (fun d => Flt.gt d.confidence thr) = [d] := by
    simp [List.filter_cons, hc]
  rw [highlightFace_eval ub net frame prev thr [d] [d] hn hf]
  simp only [List.map_cons, List.map_nil]
  rw [detectionBox_of_trunc ub d frame.cols frame.rows X1 Y1 X2 Y2 h1 h2 h3 h4]

theorem detectionBox_nonneg (ub : Flt → Int) (d : Detection) (cols rows : Int) :
    0 ≤ (detectionBox ub d cols rows).x ∧ 0 ≤ (detectionBox ub d cols rows).y := by
  unfold detectionBox
  simp only
  omega

/-- C3: `highlightFace` with the default threshold returns, whatever the output
vector held before, the boxes of exactly the rows of the detector output whose
confidence is greater than the threshold, one box per such row and in the order
of the rows; rows that are not greater, a NaN confidence included, give no box.
The threshold is the `float` nearest to 0.7, and a `float` confidence is greater
than it exactly when it is greater than 0.7; the `float` values of 0.69 and of
0.7 are not. -/
theorem highlightFace_filter (ub : Flt → Int) (net : Mat → Option (List Detection))
    (frame : Mat) (prev : List Rect) :
    highlightFace ub net frame prev defaultConfThreshold =
      (net frame).map (fun dets =>
        (dets.filter (fun d => Flt.gt d.confidence defaultConfThreshold)).map
          (fun d => detectionBox ub d frame.cols frame.rows)) ∧
    (∀ dets, net frame = some dets →
      ∃ boxes, highlightFace ub net frame prev defaultConfThreshold = some boxes ∧
        boxes.length = (dets.filter (fun d => Flt.gt d.confidence defaultConfThreshold)).length ∧
        List.Forall₂ (fun d b => b = detectionBox ub d frame.cols frame.rows)
          (dets.filter (fun d => Flt.gt d.confidence defaultConfThreshold)) boxes) ∧
    defaultConfThreshold = Flt.fin 11744051 (-24) ∧
    (∀ m e : Int, m < 2 ^ 24 →
      (Flt.gt (Flt.fin m e) defaultConfThreshold = true ↔
        (7 / 10 : ℚ) < (m : ℚ) * (2 : ℚ) ^ e)) ∧
    Flt.gt (Flt.fin 11576279 (-24)) defaultConfThreshold = false ∧
    Flt.gt (Flt.fin 11744051 (-24)) defaultConfThreshold = false ∧
    Flt.gt Flt.nan defaultConfThreshold = false := by
  have hmain := highlightFace_eq ub net frame prev defaultConfThreshold
  have hthr : defaultConfThreshold = Flt.fin 11744051 (-24) := by decide
  refine ⟨hmain, ?_, hthr, ?_, by decide, by decide, by decide⟩
  · intro dets hn
    refine ⟨_, highlightFace_eval ub net frame prev _ dets _ hn rfl, by simp, ?_⟩
    generalize dets.filter (fun d => Flt.gt d.confidence defaultConfThreshold) = kept
    induction kept with
    | nil => exact List.Forall₂.nil
    | cons d ds ih => exact List.Forall₂.cons rfl ih
  · intro m e hm
    rw [hthr]
    exact gt_threshold_iff m e hm

/-- Instance: on a black 100 × 100 frame with an output vector holding a stale box,
the rows `mixedRows` of confidence 0.95, 0.69, 0.7 and 0.95 give the boxes of the
first and the last row, in that order. -/
theorem highlightFace_filter_witness :
    highlightFace (fun _ => 0) (fun _ => some mixedRows) blackFrame [⟨1, 2, 3, 4⟩]
        defaultConfThreshold = some [⟨10, 10, 40, 40⟩, ⟨30, 30, 40, 40⟩] ∧
    (∃ boxes, highlightFace (fun _ => 0) (fun _ => some mixedRows) blackFrame [⟨1, 2, 3, 4⟩]
        defaultConfThreshold = some boxes ∧
      boxes.length =
        (mixedRows.filter (fun d => Flt.gt d.confidence defaultConfThreshold)).length ∧
      List.Forall₂ (fun d b => b = detectionBox (fun _ => 0) d blackFrame.cols blackFrame.rows)
        (mixedRows.filter (fun d => Flt.gt d.confidence defaultConfThreshold)) boxes) ∧
    (Flt.gt (Flt.fin 3 (-2)) defaultConfThreshold = true ↔
      (7 / 10 : ℚ) < ((3 : Int) : ℚ) * (2 : ℚ) ^ (-2 : Int)) :=
  ⟨(highlightFace_filter (fun _ => 0) (fun _ => some mixedRows) blackFrame
      [⟨1, 2, 3, 4⟩]).1.trans (by decide),
   (highlightFace_filter (fun _ => 0) (fun _ => some mixedRows) blackFrame
      [⟨1, 2, 3, 4⟩]).2.1 mixedRows rfl,
   (highlightFace_filter (fun _ => 0) (fun _ => some mixedRows) blackFrame
      [⟨1, 2, 3, 4⟩]).2.2.2.1 3 (-2) (by decide)⟩

/-- C6, failing inputs: on a 100 × 100 frame a row of confidence 0.95 with all four
corners at 1.0 is given the box (100, 100, -1, -1), and a row with corners
(0.9, 0.9, 0.1, 0.1) the box (90, 90, -80, -80): the width and height are
negative. -/
theorem highlightFace_negative_size (ub : Flt → Int) :
    highlightFace ub
        (fun _ => some [⟨.fin 0 0, .fin 1 0, .fin 15938355 (-24),
                         .fin 1 0, .fin 1 0, .fin 1 0, .fin 1 0⟩])
        ⟨100, 100, fun _ _ => (0, 0, 0)⟩ [] defaultConfThreshold
      = some [⟨100, 100, -1, -1⟩] ∧
    highlightFace ub
        (fun _ => some [⟨.fin 0 0, .fin 1 0, .fin 15938355 (-24),
                         .fin 15099494 (-24), .fin 15099494 (-24),
                         .fin 13421773 (-27), .fin 13421773 (-27)⟩])
        ⟨100, 100, fun _ _ => (0, 0, 0)⟩ [] defaultConfThreshold
      = some [⟨90, 90, -80, -80⟩] := by
  constructor
  · have key := highlightFace_single ub
      (fun _ => some [⟨.fin 0 0, .fin 1 0, .fin 15938355 (-24),
                       .fin 1 0, .fin 1 0, .fin 1 0, .fin 1 0⟩])
      ⟨100, 100, fun _ _ => (0, 0, 0)⟩ [] defaultConfThreshold _ 100 100 100 100 rfl
      (by decide) (by decide) (by decide) (by decide) (by decide)
    exact key.trans (by decide)
  · have key := highlightFace_single ub
      (fun _ => some [⟨.fin 0 0, .fin 1 0, .fin 15938355 (-24),
                       .fin 15099494 (-24), .fin 15099494 (-24),
                       .fin 13421773 (-27), .fin 13421773 (-27)⟩])
      ⟨100, 100, fun _ _ => (0, 0, 0)⟩ [] defaultConfThreshold _ 90 90 10 10 rfl
      (by decide) (by decide) (by decide) (by decide) (by decide)
    exact key.trans (by decide)

/-! ## The report -/

theorem foldl_append_eq (l : List String) :
    ∀ acc : String, l.foldl (fun r s => r ++ s) acc = acc ++ l.foldl (fun r s => r ++ s) "" := by
  induction l with
  | nil => intro acc; simp
  | cons x xs ih =>
    intro acc
    simp only [List.foldl_cons]
    rw [ih (acc ++ x), ih ("" ++ x), String.empty_append, String.append_assoc]

theorem join_cons (x : String) (xs : List String) :
    String.join (x :: xs) = x ++ String.join xs := by
  unfold String.join
  simp only [List.foldl_cons]
  rw [foldl_append_eq, String.empty_append]

theorem maxLocScan_lt (vs : List Flt) :
    ∀ (i : Nat) (maxVal : Flt) (best : Option Nat), (∀ b, best = some b → b < i) →
      ∀ r, maxLocScan vs i maxVal best = some r → r < i + vs.length := by
  induction vs with
  | nil =>
    intro i mv best h r hr
    simp only [maxLocScan] at hr
    simpa using h r hr
  | cons v vs ih =>
    intro i mv best h r hr
    unfold maxLocScan at hr
    split at hr
    · have := ih (i + 1) v (some i) (fun b hb => by cases hb; omega) r hr
      simp only [List.length_cons]; omega
    · have := ih (i + 1) mv best (fun b hb => by have := h b hb; omega) r hr
      simp only [List.length_cons]; omega

theorem maxLoc_lt (a : List Flt) (i : Nat) (h : maxLoc a = some i) : i < a.length := by
  cases a with
  | nil => simp [maxLoc] at h
  | cons v vs =>
    simp only [maxLoc, Option.some.injEq] at h
    cases hs : maxLocScan (v :: vs) 0 (Flt.inf true) none with
    | none =>
      rw [hs] at h
      simp only [Option.getD_none] at h
      subst h
      simp
    | some r =>
      rw [hs] at h
      simp only [Option.getD_some] at h
      subst h
      have := maxLocScan_lt (v :: vs) 0 (Flt.inf true) none (fun b hb => by cases hb) r hs
      omega

theorem maxLoc_isSome (a : List Flt) (h : a ≠ []) : ∃ i, maxLoc a = some i := by
  cases a with
  | nil => exact absurd rfl h
  | cons v vs => exact ⟨_, rfl⟩

theorem getPersonLabel_total :
    ∀ g ∈ genderList, ∀ a ∈ ageList, (getPersonLabel g a).isSome = true := by
  decide

theorem classify_mem (N : Nets) (face : Mat) (g a : String)
    (h : classify N face = some (g, a)) : g ∈ genderList ∧ a ∈ ageList := by
  unfold classify at h
  simp only [Option.bind_eq_bind, Option.bind_eq_some, Option.pure_def, Option.some.injEq,
    Prod.mk.injEq] at h
  obtain ⟨_, _, _, _, _, _, g2, hg, _, _, _, _, a2, ha, rfl, rfl⟩ := h
  exact ⟨List.getElem?_mem hg, List.getElem?_mem ha⟩

theorem classify_eq (N : Nets) (face : Mat) (g0 g1 : Flt) (gt : List Flt) (a : List Flt)
    (i : Nat) (hg : N.genderNet face = some (g0 :: g1 :: gt)) (ha : N.ageNet face = some a)
    (hi : maxLoc a = some i) (h8 : a.length ≤ 8) :
    ∃ B, ageList[i]? = some B ∧
      classify N face = some (if Flt.gt g0 g1 = true then "Male" else "Female", B) := by
  have hlt := maxLoc_lt a i hi
  have hi8 : i < ageList.length := by
    have : ageList.length = 8 := rfl
    omega
  refine ⟨ageList[i], List.getElem?_eq_getElem hi8, ?_⟩
  unfold classify
  simp only [hg, ha, hi, Option.bind_eq_bind, Option.some_bind, List.getElem?_cons_zero,
    List.getElem?_cons_succ, List.getElem?_eq_getElem hi8, Option.pure_def]
  by_cases hgt : Flt.gt g0 g1 = true
  · simp [hgt, genderList]
  · simp [hgt, genderList]

theorem faceReport_mem (ub : Flt → Int) (N : Nets) (frame : Mat) (b : Rect)
    (r : String × String × String) (h : faceReport ub N frame b = some r) :
    r.2.1 ∈ genderList ∧ r.2.2 ∈ ageList ∧ getPersonLabel r.2.1 r.2.2 = some r.1 := by
  unfold faceReport at h
  simp only [Option.bind_eq_some, Option.some.injEq] at h
  obtain ⟨face, _, ga, hc, label, hl, rfl⟩ := h
  obtain ⟨g, a⟩ := ga
  obtain ⟨hg, ha⟩ := classify_mem N face g a hc
  exact ⟨hg, ha, hl⟩

theorem processFaces_shape (ub : Flt → Int) (N : Nets) (D : Imgproc) (boxes : List Rect) :
    ∀ (frame : Mat) (acc s : String), processFaces ub N D boxes frame acc = some s →
      ∃ recs : List (String × String × String), recs.length = boxes.length ∧
        s = acc ++ String.join (List.zipWith faceRecord recs boxes) ∧
        ∀ r ∈ recs, r.2.1 ∈ genderList ∧ r.2.2 ∈ ageList ∧
          getPersonLabel r.2.1 r.2.2 = some r.1 := by
  induction boxes with
  | nil =>
    intro frame acc s h
    simp only [processFaces, Option.some.injEq] at h
    refine ⟨[], rfl, ?_, by simp⟩
    simp [String.join, ← h]
  | cons b rest ih =>
    intro frame acc s h
    simp only [processFaces, Option.bind_eq_some] at h
    obtain ⟨r, hr, h⟩ := h
    obtain ⟨recs, hlen, hs, hall⟩ := ih _ _ _ h
    refine ⟨r :: recs, by simp [hlen], ?_, ?_⟩
    · rw [hs, List.zipWith_cons_cons, join_cons]
      simp only [faceRecord, String.append_assoc]
    · intro x hx
      rcases List.mem_cons.1 hx with rfl | hx
      · exact faceReport_mem ub N frame b _ hr
      · exact hall x hx

theorem faceReport_isSome (ub : Flt → Int) (N : Nets) (frame : Mat) (b : Rect)
    (hW : frame.cols ≤ INT_MAX) (hH : frame.rows ≤ INT_MAX)
    (hfw : b.width + 2 * (max b.width b.height / 5) ≤ INT_MAX)
    (hfh : b.height + 2 * (max b.width b.height / 5) ≤ INT_MAX)
    (hgn : ∀ m : Mat, 0 < m.cols → 0 < m.rows →
      ∃ g0 g1 gt, N.genderNet m = some (g0 :: g1 :: gt))
    (han : ∀ m : Mat, 0 < m.cols → 0 < m.rows →
      ∃ a, N.ageNet m = some a ∧ a ≠ [] ∧ a.length ≤ 8)
    (hb : b.inFrame frame.cols frame.rows) (hw : 0 < b.width) (hh : 0 < b.height) :
    ∃ r, faceReport ub N frame b = some r := by
  have hb2 := hb
  unfold Rect.inFrame at hb2
  have hpad := padRect_fits ub frame.cols frame.rows b hb hW hH hfw hfh
  have hin := padRect_fits_inFrame ub frame.cols frame.rows b hb hW hH hfw hfh
  have hcw : 0 < (padRect ub frame.cols frame.rows b).width := by
    rw [hpad]; simp only; omega
  have hch : 0 < (padRect ub frame.cols frame.rows b).height := by
    rw [hpad]; simp only; omega
  unfold faceReport
  generalize padRect ub frame.cols frame.rows b = rect at hin hcw hch ⊢
  have hroi : frame.roi rect =
      some ⟨rect.width, rect.height, fun i j => frame.px (rect.y + i) (rect.x + j)⟩ :=
    roi_inFrame frame rect hin hW hH
  obtain ⟨g0, g1, gt, hg⟩ :=
    hgn ⟨rect.width, rect.height, fun i j => frame.px (rect.y + i) (rect.x + j)⟩ hcw hch
  obtain ⟨a, ha, hne, h8⟩ :=
    han ⟨rect.width, rect.height, fun i j => frame.px (rect.y + i) (rect.x + j)⟩ hcw hch
  obtain ⟨i, hi⟩ := maxLoc_isSome a hne
  obtain ⟨B, hB, hcl⟩ := classify_eq N _ g0 g1 gt a i hg ha hi h8
  have hBm : B ∈ ageList := List.getElem?_mem hB
  have hGm : (if Flt.gt g0 g1 = true then "Male" else "Female") ∈ genderList := by
    by_cases hgt : Flt.gt g0 g1 = true <;> simp [hgt, genderList]
  have hlab := getPersonLabel_total _ hGm B hBm
  obtain ⟨label, hlabel⟩ := Option.isSome_iff_exists.1 hlab
  simp only [hroi, hcl, hlabel, Option.some_bind]
  exact ⟨_, rfl⟩

theorem processFaces_total (ub : Flt → Int) (N : Nets) (D : Imgproc) (boxes : List Rect)
    (W H : Int) (hW : W ≤ INT_MAX) (hH : H ≤ INT_MAX)
    (hgn : ∀ m : Mat, 0 < m.cols → 0 < m.rows →
      ∃ g0 g1 gt, N.genderNet m = some (g0 :: g1 :: gt))
    (han : ∀ m : Mat, 0 < m.cols → 0 < m.rows →
      ∃ a, N.ageNet m = some a ∧ a ≠ [] ∧ a.length ≤ 8) :
    ∀ (frame : Mat) (acc : String), frame.cols = W → frame.rows = H →
      (∀ b ∈ boxes, b.inFrame W H ∧ 0 < b.width ∧ 0 < b.height ∧
        b.width + 2 * (max b.width b.height / 5) ≤ INT_MAX ∧
        b.height + 2 * (max b.width b.height / 5) ≤ INT_MAX) →
      ∃ s, processFaces ub N D boxes frame acc = some s := by
  induction boxes with
  | nil => intro frame acc _ _ _; exact ⟨acc, rfl⟩
  | cons b rest ih =>
    intro frame acc hc hr hall
    obtain ⟨hb, hw, hh, hfw, hfh⟩ := hall b (List.mem_cons_self _ _)
    obtain ⟨r, hrep⟩ := faceReport_isSome ub N frame b (by omega) (by omega) hfw hfh hgn han
      (by rw [hc, hr]; exact hb) hw hh
    simp only [processFaces, hrep, Option.some_bind]
    exact ih _ _ hc hr (fun x hx => hall x (List.mem_cons_of_mem _ hx))

theorem classify_none (N : Nets) (face : Mat)
    (h : N.genderNet face = none ∨ N.ageNet face = none) : classify N face = none := by
  unfold classify
  rcases h with h | h
  · simp [h]
  · cases hg : N.genderNet face with
    | none => simp
    | some genderPreds =>
      simp only [Option.bind_eq_bind, Option.some_bind, h, Option.none_bind]
      cases genderPreds[0]? with
      | none => rfl
      | some g0 =>
        cases genderPreds[1]? with
        | none => rfl
        | some g1 =>
          simp only [Option.some_bind]
          cases genderList[if Flt.gt g0 g1 = true then 0 else 1]? with
          | none => rfl
          | some g => rfl

/-- When a classifier fails on every image of the size of the padded crop of a box,
the step of the loop for that box fails on every frame of these dimensions. -/
theorem faceReport_none (ub : Flt → Int) (N : Nets) (W H : Int) (b : Rect)
    (hfail : ∀ crop : Mat, crop.cols = (padRect ub W H b).width →
      crop.rows = (padRect ub W H b).height →
      N.genderNet crop = none ∨ N.ageNet crop = none) :
    ∀ f : Mat, f.cols = W → f.rows = H → faceReport ub N f b = none := by
  intro f hc hr
  unfold faceReport
  rw [hc, hr]
  unfold Mat.roi
  split
  · simp only [Option.some_bind]
    rw [classify_none N _ (hfail _ rfl rfl)]
    rfl
  · rfl

theorem processFaces_none (ub : Flt → Int) (N : Nets) (D : Imgproc) (b : Rect) (W H : Int)
    (hfail : ∀ f : Mat, f.cols = W → f.rows = H → faceReport ub N f b = none) :
    ∀ (boxes : List Rect), b ∈ boxes → ∀ (frame : Mat) (acc : String),
      frame.cols = W → frame.rows = H → processFaces ub N D boxes frame acc = none := by
  intro boxes
  induction boxes with
  | nil => intro hb; cases hb
  | cons x rest ih =>
    intro hb frame acc hc hr
    unfold processFaces
    cases hx : faceReport ub N frame x with
    | none => rfl
    | some r =>
      simp only [Option.some_bind]
      rcases List.mem_cons.1 hb with rfl | hmem
      · rw [hfail frame hc hr] at hx
        cases hx
      · exact ih hmem _ _ hc hr

theorem processFrame_of_boxes (ub : Flt → Int) (N : Nets) (D : Imgproc) (frame : Mat)
    (boxes : List Rect)
    (hb : highlightFace ub N.faceNet frame [] defaultConfThreshold = some boxes) :
    processFrame ub N D frame = processFaces ub N D boxes frame "" := by
  unfold processFrame Java_com_example_personclassifierapp_YourNativeClass_processFrame
  rw [hb]

/-- C2, counterexample: on a black 100 × 100 frame, for the single detection with all
four corners at 0.5 `highlightFace` returns the box (50, 50, 0, 0), the padded
rectangle is (50, 50, 0, 0), the crop is empty, the classifiers fail on it (as
`blobFromImage` does on an empty image) and `processFrame` returns no string. -/
theorem processFrame_no_report :
    (∀ ub : Flt → Int,
      highlightFace ub (emptyCropNets [detectionAt f32_0_5 f32_0_5 f32_0_5 f32_0_5]).faceNet
        blackFrame [] defaultConfThreshold = some [⟨50, 50, 0, 0⟩]) ∧
    (∀ ub : Flt → Int, padRect ub 100 100 ⟨50, 50, 0, 0⟩ = ⟨50, 50, 0, 0⟩) ∧
    (∀ (ub : Flt → Int) (D : Imgproc),
      processFrame ub (emptyCropNets [detectionAt f32_0_5 f32_0_5 f32_0_5 f32_0_5]) D
        blackFrame = none) := by
  have hboxes : ∀ ub : Flt → Int,
      highlightFace ub (emptyCropNets [detectionAt f32_0_5 f32_0_5 f32_0_5 f32_0_5]).faceNet
        blackFrame [] defaultConfThreshold = some [⟨50, 50, 0, 0⟩] := by
    intro ub
    have key := highlightFace_single ub
      (emptyCropNets [detectionAt f32_0_5 f32_0_5 f32_0_5 f32_0_5]).faceNet blackFrame []
      defaultConfThreshold (detectionAt f32_0_5 f32_0_5 f32_0_5 f32_0_5) 50 50 50 50 rfl
      (by decide) (by decide) (by decide) (by decide) (by decide)
    exact key.trans (by decide)
  have hpad : ∀ ub : Flt → Int, padRect ub 100 100 ⟨50, 50, 0, 0⟩ = ⟨50, 50, 0, 0⟩ := by
    intro ub
    rw [padRect_eq ub 100 100 ⟨50, 50, 0, 0⟩ (by decide) (by decide) (by decide) (by decide)]
    decide
  refine ⟨hboxes, hpad, ?_⟩
  intro ub D
  rw [processFrame_of_boxes ub _ D blackFrame _ (hboxes ub)]
  apply processFaces_none ub _ D ⟨50, 50, 0, 0⟩ 100 100 _ _ (List.mem_cons_self _ _) _ _ rfl rfl
  apply faceReport_none
  intro crop hc hr
  rw [hpad ub] at hc
  left
  simp [emptyCropNets, hc]

/-- C2, amended: whenever `processFrame` returns a string, that string is the
concatenation, in the order of the boxes returned by `highlightFace`, of one
record per box and nothing else, each record being the line "Detected: ..." with
a label, a gender of `genderList` and a bin of `ageList`, followed by the line
"Face position - ..." of that box; with no box the string is empty;
`processFrame` does return that string when every box lies inside the frame with a
positive width and height, its padded sides `width + 2p` and `height + 2p`
(`p = max(width, height) / 5`) fit `int`, and the two classifiers answer on every
non-empty crop with at least 2 and with 1 to 8 scores; and it returns no string
when, for one of the boxes, a classifier fails on every image of the size of its
padded crop. -/
theorem processFrame_report (ub : Flt → Int) (N : Nets) (D : Imgproc) (frame : Mat) :
    (∀ s, processFrame ub N D frame = some s →
      ∃ (boxes : List Rect) (recs : List (String × String × String)),
        highlightFace ub N.faceNet frame [] defaultConfThreshold = some boxes ∧
        recs.length = boxes.length ∧
        s = String.join (List.zipWith faceRecord recs boxes) ∧
        ∀ r ∈ recs, r.2.1 ∈ genderList ∧ r.2.2 ∈ ageList ∧
          getPersonLabel r.2.1 r.2.2 = some r.1) ∧
    (∀ (r : String × String × String) (b : Rect), faceRecord r b =
      "Detected: " ++ r.1 ++ " (Gender: " ++ r.2.1 ++ ", Age: " ++ r.2.2 ++ ")\n" ++
      ("Face position - X: " ++ to_string b.x ++ ", Y: " ++ to_string b.y ++
        ", Width: " ++ to_string b.width ++ ", Height: " ++ to_string b.height ++ "\n")) ∧
    (highlightFace ub N.faceNet frame [] defaultConfThreshold = some [] →
      processFrame ub N D frame = some "") ∧
    (∀ boxes, highlightFace ub N.faceNet frame [] defaultConfThreshold = some boxes →
      (∀ b ∈ boxes, 0 < b.width ∧ 0 < b.height ∧
        b.x + b.width ≤ frame.cols ∧ b.y + b.height ≤ frame.rows ∧
        b.width + 2 * (max b.width b.height / 5) ≤ INT_MAX ∧
        b.height + 2 * (max b.width b.height / 5) ≤ INT_MAX) →
      frame.cols ≤ INT_MAX → frame.rows ≤ INT_MAX →
      (∀ m : Mat, 0 < m.cols → 0 < m.rows →
        ∃ g0 g1 gt, N.genderNet m = some (g0 :: g1 :: gt)) →
      (∀ m : Mat, 0 < m.cols → 0 < m.rows →
        ∃ a, N.ageNet m = some a ∧ a ≠ [] ∧ a.length ≤ 8) →
      ∃ recs : List (String × String × String), recs.length = boxes.length ∧
        processFrame ub N D frame = some (String.join (List.zipWith faceRecord recs boxes)) ∧
        ∀ r ∈ recs, r.2.1 ∈ genderList ∧ r.2.2 ∈ ageList ∧
          getPersonLabel r.2.1 r.2.2 = some r.1) ∧
    (∀ boxes b, highlightFace ub N.faceNet frame [] defaultConfThreshold = some boxes →
      b ∈ boxes →
      (∀ crop : Mat, crop.cols = (padRect ub frame.cols frame.rows b).width →
        crop.rows = (padRect ub frame.cols frame.rows b).height →
        N.genderNet crop = none ∨ N.ageNet crop = none) →
      processFrame ub N D frame = none) := by
  have hshape : ∀ boxes s,
      highlightFace ub N.faceNet frame [] defaultConfThreshold = some boxes →
      processFrame ub N D frame = some s →
      ∃ recs : List (String × String × String), recs.length = boxes.length ∧
        s = String.join (List.zipWith faceRecord recs boxes) ∧
        ∀ r ∈ recs, r.2.1 ∈ genderList ∧ r.2.2 ∈ ageList ∧
          getPersonLabel r.2.1 r.2.2 = some r.1 := by
    intro boxes s hb h
    rw [processFrame_of_boxes ub N D frame boxes hb] at h
    obtain ⟨recs, hlen, hs, hall⟩ := processFaces_shape ub N D boxes frame "" s h
    exact ⟨recs, hlen, by rw [hs, String.empty_append], hall⟩
  refine ⟨?_, fun _ _ => rfl, ?_, ?_, ?_⟩
  · intro s h
    cases hb : highlightFace ub N.faceNet frame [] defaultConfThreshold with
    | none =>
      unfold processFrame Java_com_example_personclassifierapp_YourNativeClass_processFrame at h
      rw [hb] at h
      cases h
    | some boxes =>
      obtain ⟨recs, h1, h2, h3⟩ := hshape boxes s hb h
      exact ⟨boxes, recs, rfl, h1, h2, h3⟩
  · intro hb
    rw [processFrame_of_boxes ub N D frame [] hb]
    rfl
  · intro boxes hb hwh hW hH hgn han
    have htot : ∃ s, processFrame ub N D frame = some s := by
      rw [processFrame_of_boxes ub N D frame boxes hb]
      apply processFaces_total ub N D boxes frame.cols frame.rows hW hH hgn han frame "" rfl rfl
      intro b hmem
      have h2 := hwh b hmem
      have h3 : 0 ≤ b.x ∧ 0 ≤ b.y := by
        rw [highlightFace_eq] at hb
        cases hn : N.faceNet frame with
        | none => rw [hn] at hb; cases hb
        | some dets =>
          rw [hn, Option.map_some', Option.some.injEq] at hb
          rw [← hb] at hmem
          obtain ⟨d, _, rfl⟩ := List.mem_map.1 hmem
          exact detectionBox_nonneg ub d _ _
      unfold Rect.inFrame
      exact ⟨⟨h3.1, h3.2, by omega, by omega, h2.2.2.1, h2.2.2.2.1⟩, h2.1, h2.2.1,
        h2.2.2.2.2.1, h2.2.2.2.2.2⟩
    obtain ⟨s, hs⟩ := htot
    obtain ⟨recs, h1, h2, h3⟩ := hshape boxes s hb hs
    exact ⟨recs, h1, by rw [hs, h2], h3⟩
  · intro boxes b hb hmem hfail
    rw [processFrame_of_boxes ub N D frame boxes hb]
    exact processFaces_none ub N D b frame.cols frame.rows
      (faceReport_none ub N frame.cols frame.rows b hfail) boxes hmem frame "" rfl rfl

/-- Instances: an empty detector output gives the empty string; the detection with
corners (0.1, 0.1, 0.5, 0.5) on a black 100 × 100 frame gives one record; and with
classifiers that fail on empty crops the detection with all corners at 0.5 gives
no string. -/
theorem processFrame_report_witness :
    processFrame (fun _ => 0) (stubNets []) noDrawing blackFrame = some "" ∧
    (∃ recs : List (String × String × String),
      recs.length = [(⟨10, 10, 40, 40⟩ : Rect)].length ∧
      processFrame (fun _ => 0) (stubNets [detectionAt f32_0_1 f32_0_1 f32_0_5 f32_0_5])
        noDrawing blackFrame = some (String.join (List.zipWith faceRecord recs [⟨10, 10, 40, 40⟩])) ∧
      ∀ r ∈ recs, r.2.1 ∈ genderList ∧ r.2.2 ∈ ageList ∧
        getPersonLabel r.2.1 r.2.2 = some r.1) ∧
    processFrame (fun _ => 0) (emptyCropNets [detectionAt f32_0_5 f32_0_5 f32_0_5 f32_0_5])
      noDrawing blackFrame = none :=
  ⟨(processFrame_report (fun _ => 0) (stubNets []) noDrawing blackFrame).2.2.1 (by decide),
   (processFrame_report (fun _ => 0) (stubNets [detectionAt f32_0_1 f32_0_1 f32_0_5 f32_0_5])
      noDrawing blackFrame).2.2.2.1 [⟨10, 10, 40, 40⟩] (by decide) (by decide) (by decide)
      (by decide)
      (fun _ _ _ => ⟨_, _, _, rfl⟩) (fun _ _ _ => ⟨_, rfl, by decide, by decide⟩),
   (processFrame_report (fun _ => 0)
      (emptyCropNets [detectionAt f32_0_5 f32_0_5 f32_0_5 f32_0_5]) noDrawing
      blackFrame).2.2.2.2 [⟨50, 50, 0, 0⟩] ⟨50, 50, 0, 0⟩ (by decide) (by decide)
      (fun crop hc _ => Or.inl (by
        have h0 : (padRect (fun _ => 0) blackFrame.cols blackFrame.rows ⟨50, 50, 0, 0⟩).width
            = 0 := by decide
        rw [h0] at hc
        simp [emptyCropNets, hc]))⟩

/-! ## Ordering of floating-point values -/

theorem zpow_split (k : Int) (a : Nat) : (2 : ℚ) ^ (k + a) = 2 ^ k * 2 ^ a := by
  rw [zpow_add₀ (by norm_num)]
  norm_cast

theorem gt_fin_iff (m1 e1 m2 e2 : Int) :
    Flt.gt (Flt.fin m1 e1) (Flt.fin m2 e2) = true ↔
      (m2 : ℚ) * (2 : ℚ) ^ e2 < (m1 : ℚ) * (2 : ℚ) ^ e1 := by
  unfold Flt.gt
  simp only [decide_eq_true_eq]
  obtain ⟨a, ha⟩ : ∃ a : Nat, e1 = min e1 e2 + a := ⟨(e1 - min e1 e2).toNat, by omega⟩
  obtain ⟨b, hb⟩ : ∃ b : Nat, e2 = min e1 e2 + b := ⟨(e2 - min e1 e2).toNat, by omega⟩
  have h1 : (e1 - min e1 e2).toNat = a := by omega
  have h2 : (e2 - min e1 e2).toNat = b := by omega
  rw [h1, h2]
  generalize min e1 e2 = k at ha hb
  subst ha hb
  rw [zpow_split, zpow_split]
  have hk : (0 : ℚ) < 2 ^ k := by positivity
  have e1 : (m2 : ℚ) * (2 ^ k * 2 ^ b) = 2 ^ k * ((m2 * 2 ^ b : Int) : ℚ) := by
    push_cast; ring
  have e2 : (m1 : ℚ) * (2 ^ k * 2 ^ a) = 2 ^ k * ((m1 * 2 ^ a : Int) : ℚ) := by
    push_cast; ring
  rw [e1, e2, mul_lt_mul_left hk]
  norm_cast

theorem gt_irrefl (a : Flt) : Flt.gt a a = false := by
  cases a with
  | fin m e => simp [Flt.gt]
  | inf n => cases n <;> rfl
  | nan => rfl

theorem gt_trans (a b c : Flt) (h1 : Flt.gt a b = true) (h2 : Flt.gt b c = true) :
    Flt.gt a c = true := by
  cases a with
  | nan => simp [Flt.gt] at h1
  | inf na =>
    cases b with
    | nan => simp [Flt.gt] at h1
    | inf nb =>
      cases c with
      | nan => simp [Flt.gt] at h2
      | inf nc => cases na <;> cases nb <;> cases nc <;> simp_all [Flt.gt]
      | fin _ _ => cases na <;> cases nb <;> simp_all [Flt.gt]
    | fin _ _ =>
      cases c with
      | nan => simp [Flt.gt] at h2
      | inf nc => cases na <;> cases nc <;> simp_all [Flt.gt]
      | fin _ _ => cases na <;> simp_all [Flt.gt]
  | fin ma ea =>
    cases b with
    | nan => simp [Flt.gt] at h1
    | inf nb =>
      cases c with
      | nan => simp [Flt.gt] at h2
      | inf nc => cases nb <;> cases nc <;> simp_all [Flt.gt]
      | fin _ _ => cases nb <;> simp_all [Flt.gt]
    | fin mb eb =>
      cases c with
      | nan => simp [Flt.gt] at h2
      | inf nc => cases nc <;> simp_all [Flt.gt]
      | fin mc ec =>
        rw [gt_fin_iff] at h1 h2 ⊢
        exact lt_trans h2 h1

theorem not_gt_negInf (x : Flt) (h : Flt.gt x (Flt.inf true) = false) :
    x = Flt.inf true ∨ x = Flt.nan := by
  cases x with
  | nan => exact Or.inr rfl
  | inf n => cases n <;> simp_all [Flt.gt]
  | fin m e => simp [Flt.gt] at h

theorem maxLocScan_spec (vs : List Flt) :
    ∀ (pre : List Flt) (maxVal : Flt) (best : Option Nat),
      ((best = none ∧ maxVal = Flt.inf true) ∨
        ∃ b, best = some b ∧ (pre ++ vs)[b]? = some maxVal) →
      (∀ v ∈ pre, Flt.gt v maxVal = false) →
      (maxLocScan vs pre.length maxVal best = none ∧
          ∀ v ∈ pre ++ vs, Flt.gt v (Flt.inf true) = false) ∨
        ∃ r w, maxLocScan vs pre.length maxVal best = some r ∧ (pre ++ vs)[r]? = some w ∧
          ∀ v ∈ pre ++ vs, Flt.gt v w = false := by
  induction vs with
  | nil =>
    intro pre mv best hb hall
    rcases hb with ⟨rfl, rfl⟩ | ⟨b, rfl, hb⟩
    · exact Or.inl ⟨rfl, by simpa using hall⟩
    · exact Or.inr ⟨b, mv, rfl, hb, by simpa using hall⟩
  | cons v vs ih =>
    intro pre mv best hb hall
    have hlist : pre ++ v :: vs = (pre ++ [v]) ++ vs := by simp
    have hlen : (pre ++ [v]).length = pre.length + 1 := by simp
    unfold maxLocScan
    by_cases hgt : Flt.gt v mv = true
    · rw [if_pos hgt, hlist, ← hlen]
      apply ih (pre ++ [v]) v (some pre.length)
      · refine Or.inr ⟨pre.length, rfl, ?_⟩
        rw [List.getElem?_append_left (by simp)]
        simp
      · intro x hx
        rcases List.mem_append.1 hx with hx | hx
        · cases hxv : Flt.gt x v with
          | false => rfl
          | true =>
            have := gt_trans x v mv hxv hgt
            rw [hall x hx] at this
            cases this
        · simp only [List.mem_singleton] at hx
          subst hx
          exact gt_irrefl x
    · rw [if_neg hgt, hlist, ← hlen]
      apply ih (pre ++ [v]) mv best
      · rcases hb with h | ⟨b, h1, h2⟩
        · exact Or.inl h
        · exact Or.inr ⟨b, h1, by rw [← hlist]; exact h2⟩
      · intro x hx
        rcases List.mem_append.1 hx with hx | hx
        · exact hall x hx
        · simp only [List.mem_singleton] at hx
          subst hx
          simpa using hgt

theorem maxLoc_spec (a : List Flt) (i : Nat) (h : maxLoc a = some i) :
    ∃ w, a[i]? = some w ∧ ∀ v ∈ a, Flt.gt v w = false := by
  cases a with
  | nil => simp [maxLoc] at h
  | cons v vs =>
    simp only [maxLoc, Option.some.injEq] at h
    have hs := maxLocScan_spec (v :: vs) [] (Flt.inf true) none (Or.inl ⟨rfl, rfl⟩)
      (by intro x hx; cases hx)
    simp only [List.length_nil, List.nil_append] at hs
    rcases hs with ⟨hnone, hall⟩ | ⟨r, w, hr, hw, hall⟩
    · rw [hnone] at h
      simp only [Option.getD_none] at h
      subst h
      refine ⟨v, by simp, ?_⟩
      intro x hx
      rcases not_gt_negInf v (hall v (List.mem_cons_self _ _)) with hv | hv <;>
        rcases not_gt_negInf x (hall x hx) with hx2 | hx2 <;> subst hv <;> subst hx2 <;> rfl
    · rw [hr] at h
      simp only [Option.getD_some] at h
      subst h
      exact ⟨w, hw, hall⟩

/-! ## One face -/

theorem faceReport_of_pad (ub : Flt → Int) (N : Nets) (frame : Mat) (b rect : Rect)
    (h : padRect ub frame.cols frame.rows b = rect) :
    faceReport ub N frame b =
      (frame.roi rect).bind fun face =>
      (classify N face).bind fun ga =>
      (getPersonLabel ga.1 ga.2).bind fun label =>
      some (label, ga.1, ga.2) := by
  unfold faceReport
  rw [h]

theorem processFrame_one_box (ub : Flt → Int) (N : Nets) (D : Imgproc) (frame : Mat)
    (pre post : List Detection) (d : Detection) (r : String × String × String)
    (hdet : N.faceNet frame = some (pre ++ d :: post))
    (hpre : ∀ x ∈ pre, Flt.gt x.confidence defaultConfThreshold = false)
    (hpost : ∀ x ∈ post, Flt.gt x.confidence defaultConfThreshold = false)
    (hconf : Flt.gt d.confidence defaultConfThreshold = true)
    (hrep : faceReport ub N frame (detectionBox ub d frame.cols frame.rows) = some r) :
    processFrame ub N D frame = some (detectedLine r.1 r.2.1 r.2.2 ++
      positionLine (detectionBox ub d frame.cols frame.rows)) := by
  have hfilter : (pre ++ d :: post).filter (fun x => Flt.gt x.confidence defaultConfThreshold)
      = [d] := by
    rw [List.filter_append, List.filter_cons]
    have h1 : pre.filter (fun x => Flt.gt x.confidence defaultConfThreshold) = [] :=
      List.filter_eq_nil_iff.2 (fun x hx => by simp [hpre x hx])
    have h2 : post.filter (fun x => Flt.gt x.confidence defaultConfThreshold) = [] :=
      List.filter_eq_nil_iff.2 (fun x hx => by simp [hpost x hx])
    simp [h1, h2, hconf]
  have hboxes : highlightFace ub N.faceNet frame [] defaultConfThreshold
      = some [detectionBox ub d frame.cols frame.rows] := by
    rw [highlightFace_eval ub N.faceNet frame [] defaultConfThreshold _ [d] hdet hfilter]
    rfl
  rw [processFrame_of_boxes ub N D frame _ hboxes]
  simp only [processFaces, hrep, Option.some_bind, String.empty_append]

/-- The box of a row with corners in [0, 1], `x1 <= x2` and `y1 <= y2`, on a frame
of fewer than `2^24` columns and rows: the scaled corners are ordered and at most
the frame size, and no step overflows. -/
theorem detectionBox_unit_corners (ub : Flt → Int) (d : Detection) (W H : Int)
    (hW0 : 0 ≤ W) (hW : W < 2 ^ 24) (hH0 : 0 ≤ H) (hH : H < 2 ^ 24)
    (hx1 : Flt.le (Flt.fin 0 0) d.x1 = true) (hx12 : Flt.le d.x1 d.x2 = true)
    (hx2 : Flt.le d.x2 (Flt.fin 1 0) = true)
    (hy1 : Flt.le (Flt.fin 0 0) d.y1 = true) (hy12 : Flt.le d.y1 d.y2 = true)
    (hy2 : Flt.le d.y2 (Flt.fin 1 0) = true) :
    0 ≤ scaleCoord ub d.x1 W ∧ scaleCoord ub d.x1 W ≤ scaleCoord ub d.x2 W ∧
    scaleCoord ub d.x2 W ≤ W ∧
    0 ≤ scaleCoord ub d.y1 H ∧ scaleCoord ub d.y1 H ≤ scaleCoord ub d.y2 H ∧
    scaleCoord ub d.y2 H ≤ H ∧
    detectionBox ub d W H =
      ⟨scaleCoord ub d.x1 W, scaleCoord ub d.y1 H,
       min (W - 1) (scaleCoord ub d.x2 W) - scaleCoord ub d.x1 W,
       min (H - 1) (scaleCoord ub d.y2 H) - scaleCoord ub d.y1 H⟩ := by
  obtain ⟨h3, h4, h5⟩ := scaleCoord_unit ub d.x1 d.x2 W hW0 hW hx1 hx12 hx2
  obtain ⟨k3, k4, k5⟩ := scaleCoord_unit ub d.y1 d.y2 H hH0 hH hy1 hy12 hy2
  refine ⟨h3, h4, h5, k3, k4, k5, ?_⟩
  unfold detectionBox
  simp only
  generalize scaleCoord ub d.x1 W = X1 at *
  generalize scaleCoord ub d.x2 W = X2 at *
  generalize scaleCoord ub d.y1 H = Y1 at *
  generalize scaleCoord ub d.y2 H = Y2 at *
  norm_num at hW hH
  have e1 : wrapInt (W - 1) = W - 1 :=
    wrapInt_eq _ (by unfold INT_MIN; omega) (by unfold INT_MAX; omega)
  have e2 : wrapInt (H - 1) = H - 1 :=
    wrapInt_eq _ (by unfold INT_MIN; omega) (by unfold INT_MAX; omega)
  rw [e1, e2, wrapInt_eq (min (W - 1) X2 - max 0 X1) (by unfold INT_MIN; omega)
    (by unfold INT_MAX; omega), wrapInt_eq (min (H - 1) Y2 - max 0 Y1)
    (by unfold INT_MIN; omega) (by unfold INT_MAX; omega)]
  simp only [Rect.mk.injEq]
  omega

/-- One face away from the right and bottom edges.  For a frame of fewer than
`2^24` columns and rows, when exactly one row `d` of the detector output has a
confidence above the threshold, its corners lie in [0, 1] with `x1 <= x2` and
`y1 <= y2`, its scaled top-left corner is a pixel of the frame, and the
classifiers answer `[g0, g1]` and the 8 scores `a` on the padded crop,
`processFrame` returns exactly the two lines of that face: the gender is "Male"
when `g0 > g1` and "Female" otherwise, the age bin is the entry of `ageList` at
the location of the maximum of `a`, the label is `getPersonLabel` of the two, and
the position is `x = static_cast<int>(x1 * cols)`, `y = static_cast<int>(y1 * rows)`
with the clamped corner differences as width and height, which are not
negative. -/
theorem processFrame_single_face (ub : Flt → Int) (N : Nets) (D : Imgproc) (frame : Mat)
    (pre post : List Detection) (d : Detection) (g0 g1 : Flt) (a : List Flt)
    (hW0 : 0 ≤ frame.cols) (hW : frame.cols < 2 ^ 24)
    (hH0 : 0 ≤ frame.rows) (hH : frame.rows < 2 ^ 24)
    (hdet : N.faceNet frame = some (pre ++ d :: post))
    (hrest : ∀ x ∈ pre ++ post, Flt.gt x.confidence defaultConfThreshold = false)
    (hconf : Flt.gt d.confidence defaultConfThreshold = true)
    (hx1 : Flt.le (Flt.fin 0 0) d.x1 = true) (hx12 : Flt.le d.x1 d.x2 = true)
    (hx2 : Flt.le d.x2 (Flt.fin 1 0) = true)
    (hy1 : Flt.le (Flt.fin 0 0) d.y1 = true) (hy12 : Flt.le d.y1 d.y2 = true)
    (hy2 : Flt.le d.y2 (Flt.fin 1 0) = true)
    (hX : scaleCoord ub d.x1 frame.cols ≤ frame.cols - 1)
    (hY : scaleCoord ub d.y1 frame.rows ≤ frame.rows - 1)
    (hnets : ∀ face,
      frame.roi (padRect ub frame.cols frame.rows (detectionBox ub d frame.cols frame.rows))
        = some face →
      N.genderNet face = some [g0, g1] ∧ N.ageNet face = some a)
    (h8 : a.length = 8) :
    ∃ (i : Nat) (B label : String),
      maxLoc a = some i ∧ (∃ w, a[i]? = some w ∧ ∀ v ∈ a, Flt.gt v w = false) ∧
      ageList[i]? = some B ∧
      getPersonLabel (if Flt.gt g0 g1 = true then "Male" else "Female") B = some label ∧
      0 ≤ min (frame.cols - 1) (scaleCoord ub d.x2 frame.cols) - scaleCoord ub d.x1 frame.cols ∧
      0 ≤ min (frame.rows - 1) (scaleCoord ub d.y2 frame.rows) - scaleCoord ub d.y1 frame.rows ∧
      processFrame ub N D frame = some
        ("Detected: " ++ label ++ " (Gender: " ++
            (if Flt.gt g0 g1 = true then "Male" else "Female") ++ ", Age: " ++ B ++ ")\n" ++
          ("Face position - X: " ++ to_string (scaleCoord ub d.x1 frame.cols) ++
            ", Y: " ++ to_string (scaleCoord ub d.y1 frame.rows) ++
            ", Width: " ++ to_string (min (frame.cols - 1) (scaleCoord ub d.x2 frame.cols)
              - scaleCoord ub d.x1 frame.cols) ++
            ", Height: " ++ to_string (min (frame.rows - 1) (scaleCoord ub d.y2 frame.rows)
              - scaleCoord ub d.y1 frame.rows) ++ "\n")) := by
  obtain ⟨hX1, hX12, hX2, hY1, hY12, hY2, hbox⟩ :=
    detectionBox_unit_corners ub d frame.cols frame.rows hW0 hW hH0 hH hx1 hx12 hx2 hy1 hy12 hy2
  have hw : 0 ≤ min (frame.cols - 1) (scaleCoord ub d.x2 frame.cols)
      - scaleCoord ub d.x1 frame.cols := by omega
  have hh : 0 ≤ min (frame.rows - 1) (scaleCoord ub d.y2 frame.rows)
      - scaleCoord ub d.y1 frame.rows := by omega
  have hWs : frame.cols ≤ 1533916891 := by norm_num at hW; omega
  have hHs : frame.rows ≤ 1533916891 := by norm_num at hH; omega
  have hin : (detectionBox ub d frame.cols frame.rows).inFrame frame.cols frame.rows := by
    rw [hbox]
    unfold Rect.inFrame
    simp only
    omega
  have hrin := padRect_small_inFrame ub frame.cols frame.rows _ hin hWs hHs
  have hroi : ∃ face, frame.roi
      (padRect ub frame.cols frame.rows (detectionBox ub d frame.cols frame.rows)) = some face :=
    ⟨_, roi_inFrame frame _ hrin (by unfold INT_MAX; omega) (by unfold INT_MAX; omega)⟩
  obtain ⟨face, hface⟩ := hroi
  have hne : a ≠ [] := by
    intro he; rw [he] at h8; cases h8
  obtain ⟨i, hi⟩ := maxLoc_isSome a hne
  obtain ⟨B, hB, hcl⟩ := classify_eq N face g0 g1 [] a i (hnets face hface).1
    (hnets face hface).2 hi (by omega)
  have hBm : B ∈ ageList := List.getElem?_mem hB
  have hGm : (if Flt.gt g0 g1 = true then "Male" else "Female") ∈ genderList := by
    by_cases hgt : Flt.gt g0 g1 = true <;> simp [hgt, genderList]
  obtain ⟨label, hlabel⟩ := Option.isSome_iff_exists.1 (getPersonLabel_total _ hGm B hBm)
  have hrep : faceReport ub N frame (detectionBox ub d frame.cols frame.rows)
      = some (label, if Flt.gt g0 g1 = true then "Male" else "Female", B) := by
    unfold faceReport
    simp only [hface, hcl, hlabel, Option.some_bind]
  refine ⟨i, B, label, hi, maxLoc_spec a i hi, hB, hlabel, hw, hh, ?_⟩
  have hpre : ∀ x ∈ pre, Flt.gt x.confidence defaultConfThreshold = false :=
    fun x hx => hrest x (List.mem_append_left _ hx)
  have hpost : ∀ x ∈ post, Flt.gt x.confidence defaultConfThreshold = false :=
    fun x hx => hrest x (List.mem_append_right _ hx)
  have hfin := processFrame_one_box ub N D frame pre post d _ hdet hpre hpost hconf hrep
  rw [hbox] at hfin
  simpa only [detectedLine, positionLine] using hfin

/-- Instance: the example of the specification. -/
theorem processFrame_single_face_example :
    ∃ (i : Nat) (B label : String),
      maxLoc [f32_0, f32_0, f32_0, f32_0, f32_1, f32_0, f32_0, f32_0] = some i ∧
      ageList[i]? = some B ∧
      getPersonLabel (if Flt.gt f32_0_9 f32_0_1 = true then "Male" else "Female") B
        = some label ∧
      processFrame (fun _ => 0) (stubNets [detectionAt f32_0_1 f32_0_1 f32_0_5 f32_0_5])
          noDrawing blackFrame = some
        ("Detected: " ++ label ++ " (Gender: " ++
            (if Flt.gt f32_0_9 f32_0_1 = true then "Male" else "Female") ++ ", Age: " ++ B ++
            ")\n" ++
          ("Face position - X: " ++ to_string (scaleCoord (fun _ => 0) f32_0_1 100) ++
            ", Y: " ++ to_string (scaleCoord (fun _ => 0) f32_0_1 100) ++
            ", Width: " ++ to_string (min (100 - 1) (scaleCoord (fun _ => 0) f32_0_5 100)
              - scaleCoord (fun _ => 0) f32_0_1 100) ++
            ", Height: " ++ to_string (min (100 - 1) (scaleCoord (fun _ => 0) f32_0_5 100)
              - scaleCoord (fun _ => 0) f32_0_1 100) ++ "\n")) := by
  obtain ⟨i, B, label, h1, _, h3, h4, _, _, h7⟩ :=
    processFrame_single_face (fun _ => 0) (stubNets [detectionAt f32_0_1 f32_0_1 f32_0_5 f32_0_5])
      noDrawing blackFrame [] [] (detectionAt f32_0_1 f32_0_1 f32_0_5 f32_0_5)
      f32_0_9 f32_0_1 [f32_0, f32_0, f32_0, f32_0, f32_1, f32_0, f32_0, f32_0]
      (by decide) (by decide) (by decide) (by decide)
      rfl (by intro x hx; cases hx) (by decide) (by decide) (by decide) (by decide) (by decide)
      (by decide) (by decide) (by decide) (by decide)
      (fun _ _ => ⟨rfl, rfl⟩) rfl
  exact ⟨i, B, label, h1, h3, h4, h7⟩

/-! ## Drawing -/

set_option maxRecDepth 16384 in
/-- C9, failing input: two overlapping faces on a black 100 × 100 frame and a
gender classifier that looks at one pixel of the crop.  Whenever the drawing for
the first face leaves the pixel at row 49, column 49 (the last pixel of the
outline of the first box) green, `processFrame` reports the second face as a
man, while the same pipeline without the drawing reports a woman. -/
theorem processFrame_drawing_changes_report (ub : Flt → Int) (D : Imgproc)
    (h : (drawFace D blackFrame ⟨10, 10, 40, 40⟩ "Woman" "(25-32)").px 49 49 = (0, 255, 0)) :
    processFrame ub overlapNets D blackFrame = some
      ("Detected: Woman (Gender: Female, Age: (25-32))\n" ++
       "Face position - X: 10, Y: 10, Width: 40, Height: 40\n" ++
       "Detected: Man (Gender: Male, Age: (25-32))\n" ++
       "Face position - X: 30, Y: 30, Width: 40, Height: 40\n") ∧
    processFrame ub overlapNets noDrawing blackFrame = some
      ("Detected: Woman (Gender: Female, Age: (25-32))\n" ++
       "Face position - X: 10, Y: 10, Width: 40, Height: 40\n" ++
       "Detected: Woman (Gender: Female, Age: (25-32))\n" ++
       "Face position - X: 30, Y: 30, Width: 40, Height: 40\n") := by
  have hb1 : detectionBox ub (detectionAt f32_0_1 f32_0_1 f32_0_5 f32_0_5)
      blackFrame.cols blackFrame.rows = ⟨10, 10, 40, 40⟩ :=
    (detectionBox_of_trunc ub (detectionAt f32_0_1 f32_0_1 f32_0_5 f32_0_5)
      blackFrame.cols blackFrame.rows 10 10 50 50 (by decide) (by decide) (by decide)
      (by decide)).trans (by decide)
  have hb2 : detectionBox ub (detectionAt f32_0_3 f32_0_3 f32_0_7 f32_0_7)
      blackFrame.cols blackFrame.rows = ⟨30, 30, 40, 40⟩ :=
    (detectionBox_of_trunc ub (detectionAt f32_0_3 f32_0_3 f32_0_7 f32_0_7)
      blackFrame.cols blackFrame.rows 30 30 70 70 (by decide) (by decide) (by decide)
      (by decide)).trans (by decide)
  have hboxes : highlightFace ub overlapNets.faceNet blackFrame [] defaultConfThreshold
      = some [⟨10, 10, 40, 40⟩, ⟨30, 30, 40, 40⟩] := by
    rw [highlightFace_eval ub overlapNets.faceNet blackFrame [] defaultConfThreshold
      [detectionAt f32_0_1 f32_0_1 f32_0_5 f32_0_5, detectionAt f32_0_3 f32_0_3 f32_0_7 f32_0_7]
      [detectionAt f32_0_1 f32_0_1 f32_0_5 f32_0_5, detectionAt f32_0_3 f32_0_3 f32_0_7 f32_0_7]
      rfl (by decide)]
    simp only [List.map_cons, List.map_nil, hb1, hb2]
  have hpad1 : padRect ub 100 100 ⟨10, 10, 40, 40⟩ = ⟨2, 2, 56, 56⟩ := by
    rw [padRect_eq ub 100 100 ⟨10, 10, 40, 40⟩ (by decide) (by decide) (by decide) (by decide)]
    decide
  have hpad2 : padRect ub 100 100 ⟨30, 30, 40, 40⟩ = ⟨22, 22, 56, 56⟩ := by
    rw [padRect_eq ub 100 100 ⟨30, 30, 40, 40⟩ (by decide) (by decide) (by decide) (by decide)]
    decide
  have hrep1 : faceReport ub overlapNets blackFrame ⟨10, 10, 40, 40⟩
      = some ("Woman", "Female", "(25-32)") :=
    (faceReport_of_pad ub overlapNets blackFrame ⟨10, 10, 40, 40⟩ ⟨2, 2, 56, 56⟩ hpad1).trans
      (by decide)
  have hman : getPersonLabel "Male" "(25-32)" = some "Man" := by decide
  have hrep2 : faceReport ub overlapNets
      (drawFace D blackFrame ⟨10, 10, 40, 40⟩ "Woman" "(25-32)")
      ⟨30, 30, 40, 40⟩ = some ("Man", "Male", "(25-32)") := by
    rw [faceReport_of_pad ub overlapNets _ ⟨30, 30, 40, 40⟩ ⟨22, 22, 56, 56⟩ hpad2]
    have hc : (drawFace D blackFrame ⟨10, 10, 40, 40⟩ "Woman" "(25-32)").cols = 100 := rfl
    have hr : (drawFace D blackFrame ⟨10, 10, 40, 40⟩ "Woman" "(25-32)").rows = 100 := rfl
    have hroi : (drawFace D blackFrame ⟨10, 10, 40, 40⟩ "Woman" "(25-32)").roi ⟨22, 22, 56, 56⟩
        = some ⟨56, 56, fun i j =>
            (drawFace D blackFrame ⟨10, 10, 40, 40⟩ "Woman" "(25-32)").px (22 + i) (22 + j)⟩ := by
      unfold Mat.roi
      rw [if_pos (by rw [hc, hr]; decide)]
    simp only [Option.some_bind, hroi]
    have hcl : classify overlapNets ⟨56, 56, fun i j =>
        (drawFace D blackFrame ⟨10, 10, 40, 40⟩ "Woman" "(25-32)").px (22 + i) (22 + j)⟩
        = some ("Male", "(25-32)") := by
      unfold classify overlapNets
      simp only
      have e : (22 : Int) + 27 = 49 := by decide
      simp only [e, h, if_true]
      rfl
    simp only [hcl, Option.some_bind, hman]
  have hrep3 : faceReport ub overlapNets
      (drawFace noDrawing blackFrame ⟨10, 10, 40, 40⟩ "Woman" "(25-32)")
      ⟨30, 30, 40, 40⟩ = some ("Woman", "Female", "(25-32)") :=
    (faceReport_of_pad ub overlapNets _ ⟨30, 30, 40, 40⟩ ⟨22, 22, 56, 56⟩ hpad2).trans
      (by decide)
  constructor
  · rw [processFrame_of_boxes ub overlapNets D blackFrame _ hboxes]
    simp only [processFaces, hrep1, hrep2, Option.some_bind]
    decide
  · rw [processFrame_of_boxes ub overlapNets noDrawing blackFrame _ hboxes]
    simp only [processFaces, hrep1, hrep3, Option.some_bind]
    decide

set_option maxRecDepth 16384 in
theorem processFrame_drawing_changes_report_witness :
    processFrame (fun _ => 0) overlapNets outlineDrawing blackFrame = some
      ("Detected: Woman (Gender: Female, Age: (25-32))\n" ++
       "Face position - X: 10, Y: 10, Width: 40, Height: 40\n" ++
       "Detected: Man (Gender: Male, Age: (25-32))\n" ++
       "Face position - X: 30, Y: 30, Width: 40, Height: 40\n") ∧
    processFrame (fun _ => 0) overlapNets noDrawing blackFrame = some
      ("Detected: Woman (Gender: Female, Age: (25-32))\n" ++
       "Face position - X: 10, Y: 10, Width: 40, Height: 40\n" ++
       "Detected: Woman (Gender: Female, Age: (25-32))\n" ++
       "Face position - X: 30, Y: 30, Width: 40, Height: 40\n") :=
  processFrame_drawing_changes_report (fun _ => 0) outlineDrawing (by decide)

/-! ## Literals and sample roundings -/

/-- The literals are the nearest values of their formats: each decimal differs
from the stored dyadic number by less than half a unit in the last place. -/
theorem literals_nearest :
    (dbl_0_2 = Flt.fin 7205759403792794 (-55) ∧ 5 * 7205759403792794 = 2 ^ 55 + 2) ∧
    (dbl_0_7 = Flt.fin 6305039478318694 (-53) ∧ 10 * 6305039478318694 + 4 = 7 * 2 ^ 53) ∧
    (defaultConfThreshold = f32_0_7 ∧ 10 * 11744051 + 2 = 7 * 2 ^ 24) ∧
    (f32_0_95 = Flt.fin 15938355 (-24) ∧ 20 * 15938355 + 4 = 19 * 2 ^ 24) ∧
    (f32_0_9 = Flt.fin 15099494 (-24) ∧ 10 * 15099494 + 4 = 9 * 2 ^ 24) ∧
    (f32_0_1 = Flt.fin 13421773 (-27) ∧ 10 * 13421773 = 2 ^ 27 + 2) ∧
    (f32_0_3 = Flt.fin 10066330 (-25) ∧ 10 * 10066330 = 3 * 2 ^ 25 + 4) := by
  have h5 : defaultConfThreshold = f32_0_7 := by decide
  exact ⟨⟨rfl, by norm_num⟩, ⟨rfl, by norm_num⟩, ⟨h5, by norm_num⟩, ⟨rfl, by norm_num⟩,
    ⟨rfl, by norm_num⟩, ⟨rfl, by norm_num⟩, ⟨rfl, by norm_num⟩⟩

/-- Sample results of the rounding model: `0.1f * 100` is exactly `10.0f`,
`0.29f * 100` rounds up to `29.0f`, `16777217` converts to `16777216.0f`,
`1.0f * 2147483647` is `2^31`, outside the range of `int`, `0.2 * 2147483647`
truncates to `429496729`, and sums wrap around. -/
theorem rounding_samples (ub : Flt → Int) :
    Flt.mul binary32 f32_0_1 (Flt.ofInt binary32 100) = Flt.fin 10485760 (-20) ∧
    scaleCoord ub f32_0_1 100 = 10 ∧
    Flt.mul binary32 (Flt.fin 9730785 (-25)) (Flt.ofInt binary32 100) = Flt.fin 15204352 (-19) ∧
    scaleCoord ub (Flt.fin 9730785 (-25)) 100 = 29 ∧
    Flt.ofInt binary32 16777217 = Flt.fin 8388608 1 ∧
    Flt.mul binary32 f32_1 (Flt.ofInt binary32 2147483647) = Flt.fin 8388608 8 ∧
    truncInt (Flt.fin 8388608 8) = none ∧
    padding ub 2147483647 = 429496729 ∧ padding ub (-1) = 0 ∧
    wrapInt (1932735232 + 2 * 386547046) = -1589137972 ∧
    wrapInt (-1800000000 - 1800000000) = 694967296 :=
  ⟨by decide, castInt_of_trunc ub _ 10 (by decide), by decide,
   castInt_of_trunc ub _ 29 (by decide), by decide, by decide, by decide,
   (padding_eq ub 2147483647 (by decide) (by decide)).trans (by norm_num),
   castInt_of_trunc ub _ 0 (by decide), by decide, by decide⟩

end PersonClassifier
